import Mathlib

/-!
# Verification of the IntuneCD staged dependent-batch-fetch and enrichment engine

Shallow embedding of the four backup modules
(`AppConfiguration.py`, `DeviceCompliance.py`, `GroupPolicyConfigurations.py`,
`Roles.py`).  Records are JSON-like trees; Python dicts are insertion-ordered
association lists; operations that can raise in Python return `Option`
(`none` = an uncaught exception at that point).
-/

/-- JSON-like values: the tree shape of Graph API records. -/
inductive JSON where
  | null : JSON
  | bool (b : Bool) : JSON
  | num (n : Int) : JSON
  | str (s : String) : JSON
  | arr (elems : List JSON) : JSON
  | obj (entries : List (String × JSON)) : JSON
deriving Repr

mutual

/-- Boolean structural equality of JSON values. -/
def JSON.beq : JSON → JSON → Bool
  | .null, .null => true
  | .bool a, .bool b => a == b
  | .num a, .num b => a == b
  | .str a, .str b => a == b
  | .arr xs, .arr ys => JSON.beqList xs ys
  | .obj xs, .obj ys => JSON.beqEntries xs ys
  | _, _ => false

/-- Boolean equality of JSON sequences. -/
def JSON.beqList : List JSON → List JSON → Bool
  | [], [] => true
  | x :: xs, y :: ys => JSON.beq x y && JSON.beqList xs ys
  | _, _ => false

/-- Boolean equality of JSON object entry lists. -/
def JSON.beqEntries : List (String × JSON) → List (String × JSON) → Bool
  | [], [] => true
  | (k, v) :: xs, (k', v') :: ys =>
      k == k' && JSON.beq v v' && JSON.beqEntries xs ys
  | _, _ => false

end

theorem JSON.beqList_iff_eq (xs ys : List JSON)
    (h : ∀ a ∈ xs, ∀ b, (JSON.beq a b = true ↔ a = b)) :
    JSON.beqList xs ys = true ↔ xs = ys := by
  induction xs generalizing ys with
  | nil => cases ys <;> simp [JSON.beqList]
  | cons x xs ih =>
    cases ys with
    | nil => simp [JSON.beqList]
    | cons y ys =>
      simp only [JSON.beqList, Bool.and_eq_true, List.cons.injEq]
      rw [h x (List.mem_cons_self x xs),
        ih ys (fun a ha b => h a (List.mem_cons_of_mem x ha) b)]

theorem JSON.beqEntries_iff_eq (xs ys : List (String × JSON))
    (h : ∀ p ∈ xs, ∀ b, (JSON.beq p.2 b = true ↔ p.2 = b)) :
    JSON.beqEntries xs ys = true ↔ xs = ys := by
  induction xs generalizing ys with
  | nil => cases ys <;> simp [JSON.beqEntries]
  | cons x xs ih =>
    obtain ⟨k, v⟩ := x
    cases ys with
    | nil => simp [JSON.beqEntries]
    | cons y ys =>
      obtain ⟨k', v'⟩ := y
      simp only [JSON.beqEntries, Bool.and_eq_true, beq_iff_eq,
        List.cons.injEq, Prod.mk.injEq]
      rw [h (k, v) (List.mem_cons_self (k, v) xs),
        ih ys (fun p hp b => h p (List.mem_cons_of_mem (k, v) hp) b)]

theorem JSON.beq_iff_eq : ∀ (a b : JSON), JSON.beq a b = true ↔ a = b := by
  have H : ∀ (n : Nat) (a : JSON), sizeOf a ≤ n →
      ∀ b, (JSON.beq a b = true ↔ a = b) := by
    intro n
    induction n with
    | zero => intro a ha; exfalso; cases a <;> simp at ha
    | succ n ih =>
      intro a ha b
      cases a with
      | null => cases b <;> simp [JSON.beq]
      | bool x => cases b <;> simp [JSON.beq]
      | num x => cases b <;> simp [JSON.beq]
      | str x => cases b <;> simp [JSON.beq]
      | arr xs =>
        cases b <;> simp only [JSON.beq, Bool.false_eq_true, false_iff] <;>
          try (intro hc; exact JSON.noConfusion hc)
        rename_i ys
        have hxs : sizeOf xs ≤ n := by simp at ha; omega
        rw [JSON.beqList_iff_eq xs ys (fun a hmem b => by
          refine ih a ?_ b
          have := List.sizeOf_lt_of_mem hmem
          omega)]
        constructor
        · intro h; rw [h]
        · intro h; exact JSON.arr.inj h
      | obj kvs =>
        cases b <;> simp only [JSON.beq, Bool.false_eq_true, false_iff] <;>
          try (intro hc; exact JSON.noConfusion hc)
        rename_i ys
        have hkvs : sizeOf kvs ≤ n := by simp at ha; omega
        rw [JSON.beqEntries_iff_eq kvs ys (fun p hmem b => by
          refine ih p.2 ?_ b
          have h1 := List.sizeOf_lt_of_mem hmem
          obtain ⟨k, v⟩ := p
          simp at h1 ⊢
          omega)]
        constructor
        · intro h; rw [h]
        · intro h; exact JSON.obj.inj h
  intro a b
  exact H (sizeOf a) a (Nat.le_refl _) b

instance : DecidableEq JSON := fun a b =>
  decidable_of_iff (JSON.beq a b = true) (JSON.beq_iff_eq a b)

/-- Python truthiness of a JSON value (`if value:`). -/
def truthy : JSON → Bool
  | .null => false
  | .bool b => b
  | .num n => n != 0
  | .str s => s != ""
  | .arr xs => !xs.isEmpty
  | .obj kvs => !kvs.isEmpty

/-- View a value as a mapping; `none` models the `TypeError`/`AttributeError`
Python raises when a non-mapping is used where a mapping is required. -/
def asObj : JSON → Option (List (String × JSON))
  | .obj kvs => some kvs
  | _ => none

/-- View a value as a sequence; `none` models iterating/indexing a
non-sequence (iteration of strings and mappings is not modelled). -/
def asArr : JSON → Option (List JSON)
  | .arr xs => some xs
  | _ => none

/-- First-occurrence association lookup: Python `d[k]` / `d.get(k)` on a dict. -/
def getEntry : List (String × JSON) → String → Option JSON
  | [], _ => none
  | (k', v) :: rest, k => if k' = k then some v else getEntry rest k

/-- Python dict assignment `d[k] = v`: replace the value in place if the key
exists (keeping its position), otherwise append the new entry at the end. -/
def upsert : List (String × JSON) → String → JSON → List (String × JSON)
  | [], k, v => [(k, v)]
  | (k', v') :: rest, k, v =>
      if k' = k then (k, v) :: rest else (k', v') :: upsert rest k v

/-- Python `d.pop(k, None)`: drop the entry for `k` (keys are unique in a
Python dict, so dropping every matching entry is faithful). -/
def eraseKey (kvs : List (String × JSON)) (k : String) : List (String × JSON) :=
  kvs.filter (fun e => e.1 ≠ k)

/-- A value usable as a Python dict key / set element; lists and dicts are
unhashable and raise `TypeError`. -/
def hashable : JSON → Bool
  | .arr _ => false
  | .obj _ => false
  | _ => true

/-- Lookup in a JSON-keyed dict (first occurrence). -/
def dlookup : List (JSON × JSON) → JSON → Option JSON
  | [], _ => none
  | (k', v) :: rest, k => if k' = k then some v else dlookup rest k

/-- Assignment into a JSON-keyed dict, Python in-place semantics. -/
def dupsert : List (JSON × JSON) → JSON → JSON → List (JSON × JSON)
  | [], k, v => [(k, v)]
  | (k', v') :: rest, k, v =>
      if k' = k then (k, v) :: rest else (k', v') :: dupsert rest k v

/-- Python `d.get(k)` on a JSON-keyed dict; outer `none` is the `TypeError`
raised for an unhashable key. -/
def pyDictGet (m : List (JSON × JSON)) (k : JSON) : Option (Option JSON) :=
  if hashable k then some (dlookup m k) else none

/-- Python `d.get(k, dflt)` on a string-keyed dict whose keys are strings but
whose probe is an arbitrary JSON value. -/
def pyStrKeyGet (m : List (String × JSON)) (k : JSON) (dflt : JSON) : Option JSON :=
  if hashable k then
    some (match k with
          | .str s => (getEntry m s).getD dflt
          | _ => dflt)
  else none

/-- Python `set.add`: insert without duplicating; `none` is the `TypeError`
for an unhashable element.  Insertion order stands in for the set's
iteration order (the claims depend only on membership and cardinality). -/
def sinsert (s : List JSON) (x : JSON) : Option (List JSON) :=
  if hashable x then some (if x ∈ s then s else s ++ [x]) else none

/-! ## Shared engine pieces -/

/-- One batched round-trip handed to the transport collaborator
(`self.batch_request(data=..., url=..., extra_url=..., method=...)`). -/
structure BatchCall where
  data : List JSON
  url : String
  extraUrl : String
  method : String
deriving DecidableEq, Repr

/-- Result of one backup-module `main()` invocation: a returned result, a
caught fatal error (`return None` after logging at error level), or an
uncaught exception propagating out of `main()`. -/
inductive Outcome where
  | ok (res : JSON) : Outcome
  | fatalLogged (msg : String) : Outcome
  | raised : Outcome
deriving DecidableEq, Repr

/-- A `main()` run: its outcome plus the batched round-trips it issued. -/
structure ModuleRun where
  outcome : Outcome
  calls : List BatchCall
deriving DecidableEq, Repr

/-- A Batch Request Item `{"id": x}`. -/
def mkIdItem (x : JSON) : JSON := .obj [("id", x)]

/-- The all-zero GUID the source API uses for "no value set". -/
def zeroGuid : String := "00000000-0000-0000-0000-000000000000"

/-- Python `s.split("/")` over the string's character list, keeping empty
segments (`"".split("/") == [""]`, `"/".split("/") == ["", ""]`). -/
def splitSlashAux : List Char → List Char → List String
  | [], cur => [String.mk cur.reverse]
  | c :: rest, cur =>
      if c = '/' then String.mk cur.reverse :: splitSlashAux rest []
      else splitSlashAux rest (c :: cur)

/-- Python `s.split("/")`. -/
def splitSlash (s : String) : List String := splitSlashAux s.data []

/-- Python `"/" in s`. -/
def containsSlash (s : String) : Bool := s.data.contains '/'

/-- Correlation-key recovery from a batch response envelope id:
`sid.split("/")[-2] if "/" in sid else None`. -/
def extractCorrelationKey (s : String) : Option String :=
  if containsSlash s then (splitSlash s).get? ((splitSlash s).length - 2)
  else none

/-- Python `pat in s` combined with `s.split(pat)[0]`: the prefix of `s`
before the first occurrence of the (non-empty) pattern, or `none` when the
pattern does not occur. -/
def substringPrefix (pat : List Char) : List Char → List Char → Option String
  | l, acc =>
    if pat.isPrefixOf l then some (String.mk acc.reverse)
    else
      match l with
      | [] => none
      | c :: rest => substringPrefix pat rest (c :: acc)

/-- The result of `response.get("id", "")` as consumed by the string
operations of the correlation-key extraction; a non-string id raises
(`"/" in id` is a `TypeError`). -/
def envelopeIdString (kvs : List (String × JSON)) : Option String :=
  match getEntry kvs "id" with
  | some (.str s) => some s
  | none => some ""
  | some _ => none

/-- Modelled from the spec: `remove_keys` of `BaseBackupModule` (code not
under `src/`) strips a fixed set of metadata keys from a mapping in place;
the set of stripped keys is the parameter `ks`. -/
def removeKeys (ks : List String) : JSON → JSON
  | .obj kvs => .obj (kvs.filter (fun e => e.1 ∉ ks))
  | j => j

/-- Python `str()` formatting of a JSON value as interpolated by the
f-strings that build composite batch ids.  Only string ids occur in the
data these modules interpolate; containers are not reproduced exactly. -/
def jsonFormat : JSON → String
  | .str s => s
  | .num n => toString n
  | .bool b => if b then "True" else "False"
  | .null => "None"
  | .arr _ => "[list]"
  | .obj _ => "[dict]"

/-- One envelope's contribution to a correlation-keyed Resolution Map. -/
def envelopeValueStep (m : List (String × JSON)) (resp : JSON) :
    Option (List (String × JSON)) := do
  let kvs ← asObj resp
  match getEntry kvs "body" with
  | some body =>
    if truthy body then do
      let bkvs ← asObj body
      match getEntry bkvs "value" with
      | some v =>
        if truthy v then do
          let sid ← envelopeIdString kvs
          match extractCorrelationKey sid with
          | some pid => if pid = "" then pure m else pure (upsert m pid v)
          | none => pure m
        else pure m
      | none => pure m
    else pure m
  | none => pure m

/-- Resolution-map building shared by `GroupPolicyConfigurations.py` lines
61-66 and `Roles.py` lines 89-93: for each envelope with a truthy `body`
holding a truthy `value`, extract the correlation key from the envelope id
and map it (when itself truthy) to `body["value"]`. -/
def buildEnvelopeValueMap (responses : List JSON) :
    Option (List (String × JSON)) :=
  responses.foldlM envelopeValueStep []

/-- Resolution-map building shared by `AppConfiguration.py` lines 67-71 and
`Roles.py` lines 113-117: each envelope with a truthy `body` contributes
`body["id"] -> body`. -/
def buildBodyByIdMap (responses : List JSON) :
    Option (List (JSON × JSON)) :=
  responses.foldlM (fun m resp => do
    let kvs ← asObj resp
    match getEntry kvs "body" with
    | some body =>
      if truthy body then do
        let bkvs ← asObj body
        let bid ← getEntry bkvs "id"
        if hashable bid then pure (dupsert m bid body) else none
      else pure m
    | none => pure m) []

/-- Resolution-map building shared by `DeviceCompliance.py` lines 200-203 and
`Roles.py` lines 137-141: each envelope with a truthy `body` contributes
`body["id"] -> body["displayName"]`. -/
def buildNameByIdMap (responses : List JSON) :
    Option (List (JSON × JSON)) :=
  responses.foldlM (fun m resp => do
    let kvs ← asObj resp
    match getEntry kvs "body" with
    | some body =>
      if truthy body then do
        let bkvs ← asObj body
        let bid ← getEntry bkvs "id"
        let name ← getEntry bkvs "displayName"
        if hashable bid then pure (dupsert m bid name) else none
      else pure m
    | none => pure m) []

/-! ## AppConfiguration module (`AppConfiguration.py`) -/

/-- Lines 53-55: add one record's `targetedMobileApps` elements to the
harvested set. -/
def acHarvestStep (s : List JSON) (item : JSON) : Option (List JSON) := do
  let kvs ← asObj item
  let apps ← getEntry kvs "targetedMobileApps"
  let appsL ← asArr apps
  appsL.foldlM sinsert s

/-- Lines 52-55: collect every element of every record's
`targetedMobileApps` sequence into a deduplicated set. -/
def acHarvestAppIds (items : List JSON) : Option (List JSON) :=
  items.foldlM acHarvestStep []

/-- Lines 59-66: the single batched round-trip for the harvested app ids,
issued only when the set is non-empty. -/
def acAppCalls (appIds : List JSON) : List BatchCall :=
  if appIds.isEmpty then []
  else [⟨appIds.map mkIdItem, "/beta/deviceAppManagement/mobileApps", "", "GET"⟩]

/-- Lines 77-79: walk the record's `targetedMobileApps` in order and return
the first app whose resolved details are present (and truthy) in the map;
`some none` when no app resolves, outer `none` for an unhashable element. -/
def acFirstResolvable (m : List (JSON × JSON)) :
    List JSON → Option (Option JSON)
  | [] => some none
  | a :: rest => do
    let r ← pyDictGet m a
    match r with
    | some d => if truthy d then some (some d) else acFirstResolvable m rest
    | none => acFirstResolvable m rest

/-- Lines 75-84: replace the record's `targetedMobileApps` list by
`{appName, type}` taken from the first resolvable app's details. -/
def acEnrichApps (m : List (JSON × JSON)) (item : JSON) : Option JSON := do
  let kvs ← asObj item
  match getEntry kvs "targetedMobileApps" with
  | some tma =>
    if truthy tma then do
      let apps ← asArr tma
      let found ← acFirstResolvable m apps
      match found with
      | some appData => do
        let akvs ← asObj appData
        let name ← getEntry akvs "displayName"
        let ty ← getEntry akvs "@odata.type"
        let kvs1 := eraseKey kvs "targetedMobileApps"
        pure (.obj (upsert kvs1 "targetedMobileApps"
          (.obj [("appName", name), ("type", ty)])))
      | none => pure item
    else pure item
  | none => pure item

/-- Lines 86-88: decode the record's truthy `payloadJson` field.  The
decoder (`decode_base64` of `BaseBackupModule`, code not under `src/`,
composed with `json.loads`) is the oracle parameter `decode`; `none`
models a decoding exception. -/
def acDecodePayload (decode : String → Option JSON) (item : JSON) :
    Option JSON := do
  let kvs ← asObj item
  match getEntry kvs "payloadJson" with
  | some pj =>
    if truthy pj then do
      let s ← (match pj with | .str s => some s | _ => none)
      let decoded ← decode s
      pure (.obj (upsert kvs "payloadJson" decoded))
    else pure item
  | none => pure item

/-- Lines 74-88: per-record enrichment of one App Configuration. -/
def acEnrichRecord (m : List (JSON × JSON)) (decode : String → Option JSON)
    (item : JSON) : Option JSON :=
  acEnrichApps m item >>= acDecodePayload decode

/-- Lines 50-88: the whole enrichment pass over `graph_data["value"]`,
returning the (possibly mutated) value alongside the batch calls issued. -/
def acEnrichValue (batch : BatchCall → List JSON)
    (decode : String → Option JSON) (value : JSON) :
    Option JSON × List BatchCall :=
  if truthy value then
    match asArr value with
    | none => (none, [])
    | some items =>
      match acHarvestAppIds items with
      | none => (none, [])
      | some appIds =>
        let calls := acAppCalls appIds
        match buildBodyByIdMap (calls.map batch).flatten with
        | none => (none, calls)
        | some m =>
          match items.mapM (acEnrichRecord m decode) with
          | none => (none, calls)
          | some items2 => (some (.arr items2), calls)
  else (some value, [])

/-- Main method `AppConfigurationBackupModule.main` (lines 39-103): primary fetch
(`none` = the request raised, caught and logged), enrichment, persistence
(`process` is the `process_data` collaborator, `none` = it raised). -/
def acMain (fetch : Option JSON) (batch : BatchCall → List JSON)
    (decode : String → Option JSON) (process : JSON → Option JSON) :
    ModuleRun :=
  match fetch with
  | none => ⟨.fatalLogged "Error getting App Configuration data", []⟩
  | some g =>
    match asObj g with
    | none => ⟨.raised, []⟩
    | some kvs =>
      match getEntry kvs "value" with
      | none => ⟨.raised, []⟩
      | some value =>
        match acEnrichValue batch decode value with
        | (none, calls) => ⟨.raised, calls⟩
        | (some value2, calls) =>
          match process value2 with
          | none => ⟨.fatalLogged "Error processing App Configuration data", calls⟩
          | some r => ⟨.ok r, calls⟩

/-! ## DeviceCompliance module (`DeviceCompliance.py`) -/

/-- The Linux compliance sentinel string. -/
def linuxSentinel : String := "linux_customcompliance_discoveryscript"

mutual

/-- Method `_check_linux_discovery_script` (lines 33-48): does the sentinel occur
as a direct mapping value, or recursively inside any mapping value or
sequence element? -/
def checkLinux : JSON → Bool
  | .obj kvs => checkLinuxEntries kvs
  | .arr xs => checkLinuxList xs
  | _ => false

/-- Entry walk of `_check_linux_discovery_script` over a mapping's values. -/
def checkLinuxEntries : List (String × JSON) → Bool
  | [] => false
  | (_, v) :: rest =>
      v = JSON.str linuxSentinel || checkLinux v || checkLinuxEntries rest

/-- Element walk of `_check_linux_discovery_script` over a sequence. -/
def checkLinuxList : List JSON → Bool
  | [] => false
  | x :: rest => checkLinux x || checkLinuxList rest

end

/-- A step of a traversal path: a mapping key or a sequence index. -/
inductive PathElem where
  | key (k : String) : PathElem
  | idx (i : Nat) : PathElem
deriving DecidableEq, Repr

mutual

/-- Method `_get_detection_script_id` (lines 50-75): depth-first search for the
sentinel, returning the path of the mapping that holds it as a direct
scalar value; only mappings are searched at each recursion root, so a
sentinel that is a direct sequence element is never matched. -/
def getDetectionScriptId : JSON → List PathElem → Option (List PathElem)
  | .obj kvs, path => getDSIEntries kvs path
  | _, _ => none

/-- Key-ordered walk of `_get_detection_script_id` over a mapping. -/
def getDSIEntries : List (String × JSON) → List PathElem → Option (List PathElem)
  | [], _ => none
  | (k, v) :: rest, path =>
    match v with
    | .obj kvs2 =>
      match getDSIEntries kvs2 (path ++ [.key k]) with
      | some p => some p
      | none => getDSIEntries rest path
    | .arr xs =>
      match getDSIList k xs 0 path with
      | some p => some p
      | none => getDSIEntries rest path
    | v' =>
      if v' = JSON.str linuxSentinel then some path else getDSIEntries rest path

/-- Index-ordered walk of `_get_detection_script_id` over a sequence value. -/
def getDSIList (k : String) : List JSON → Nat → List PathElem → Option (List PathElem)
  | [], _, _ => none
  | x :: rest, i, path =>
    match getDetectionScriptId x (path ++ [.key k, .idx i]) with
    | some p => some p
    | none => getDSIList k rest (i + 1) path

end

mutual

/-- All paths the detection-script search could return, in its traversal
order (mapping keys in insertion order, then sequence index order); the
reference list against which first-match behaviour is proved. -/
def sentinelPaths : JSON → List PathElem → List (List PathElem)
  | .obj kvs, path => sentinelPathsEntries kvs path
  | _, _ => []

/-- Entry walk collecting every match of the detection-script search. -/
def sentinelPathsEntries : List (String × JSON) → List PathElem → List (List PathElem)
  | [], _ => []
  | (k, v) :: rest, path =>
    match v with
    | .obj kvs2 => sentinelPathsEntries kvs2 (path ++ [.key k]) ++
        sentinelPathsEntries rest path
    | .arr xs => sentinelPathsList k xs 0 path ++ sentinelPathsEntries rest path
    | v' =>
      if v' = JSON.str linuxSentinel then path :: sentinelPathsEntries rest path
      else sentinelPathsEntries rest path

/-- Element walk collecting every match of the detection-script search. -/
def sentinelPathsList (k : String) : List JSON → Nat → List PathElem → List (List PathElem)
  | [], _, _ => []
  | x :: rest, i, path =>
      sentinelPaths x (path ++ [.key k, .idx i]) ++ sentinelPathsList k rest (i + 1) path

end

/-- One step of `_get_value_from_path` (lines 87-91): index a sequence by a
numeric path element or a mapping by a key element; anything else raises. -/
def pathStep (d : JSON) (e : PathElem) : Option JSON :=
  match d with
  | .arr xs =>
    match e with
    | .idx i => xs.get? i
    | .key _ => none
  | .obj kvs =>
    match e with
    | .key k => getEntry kvs k
    | .idx _ => none
  | _ => none

/-- Method `_get_value_from_path` (lines 77-92): walk the path, then extract the
sibling field `simpleSettingValue.value` of the discovered mapping. -/
def getValueFromPath (d : JSON) (path : List PathElem) : Option JSON := do
  let t ← path.foldlM pathStep d
  let tkvs ← asObj t
  let sv ← getEntry tkvs "simpleSettingValue"
  let svkvs ← asObj sv
  getEntry svkvs "value"

/-- Lines 186-188: harvest one configuration's `notificationTemplateId`
when it is truthy and not the all-zero sentinel. -/
def dcHarvestConfigStep (ts : List JSON) (config : JSON) : Option (List JSON) := do
  let ckvs ← asObj config
  match getEntry ckvs "notificationTemplateId" with
  | some t =>
    if truthy t ∧ t ≠ .str zeroGuid then sinsert ts t
    else pure ts
  | none => pure ts

/-- Lines 184-188: harvest template ids from one scheduled action. -/
def dcHarvestActionStep (ts : List JSON) (action : JSON) : Option (List JSON) := do
  let akvs ← asObj action
  let configsJ := (getEntry akvs "scheduledActionConfigurations").getD (.arr [])
  let configs ← asArr configsJ
  configs.foldlM dcHarvestConfigStep ts

/-- Lines 177-188: one envelope's contribution to the scheduled-actions
Resolution Map and the harvested template-id set. -/
def dcScheduledStep (acc : List (String × JSON) × List JSON) (resp : JSON) :
    Option (List (String × JSON) × List JSON) := do
  let kvs ← asObj resp
  match getEntry kvs "body" with
  | some body =>
    if truthy body then do
      let bkvs ← asObj body
      match getEntry bkvs "value" with
      | some v =>
        if truthy v then do
          let sid ← envelopeIdString kvs
          match extractCorrelationKey sid with
          | some pid =>
            if pid = "" then pure acc
            else do
              let m2 := upsert acc.1 pid v
              let actions ← asArr v
              let tids2 ← actions.foldlM dcHarvestActionStep acc.2
              pure (m2, tids2)
          | none => pure acc
        else pure acc
      | none => pure acc
    else pure acc
  | none => pure acc

/-- Lines 176-188: build the scheduled-actions Resolution Map keyed by the
correlation key recovered from each envelope id, while harvesting the
deduplicated set of non-sentinel notification template ids. -/
def dcBuildScheduled (responses : List JSON) :
    Option (List (String × JSON) × List JSON) :=
  responses.foldlM dcScheduledStep ([], [])

/-- Lines 191-199: the single batched round-trip for the harvested
notification template ids, issued only when the set is non-empty. -/
def dcTemplateCalls (tids : List JSON) : List BatchCall :=
  if tids.isEmpty then []
  else [⟨tids.map mkIdItem, "/beta/deviceManagement/notificationMessageTemplates",
        "", "GET"⟩]

/-- Lines 222-226: one scheduled-action configuration: attach the resolved
template name when the template id is truthy and not the all-zero sentinel,
then strip metadata keys. -/
def dcProcessConfig (tm : List (JSON × JSON)) (ks : List String)
    (config : JSON) : Option JSON := do
  let ckvs ← asObj config
  let step1 ←
    match getEntry ckvs "notificationTemplateId" with
    | some t =>
      if truthy t ∧ t ≠ .str zeroGuid then do
        let r ← pyDictGet tm t
        pure (JSON.obj (upsert ckvs "notificationTemplateName" (r.getD .null)))
      else pure config
    | none => pure config
  pure (removeKeys ks step1)

/-- Lines 220-226: one scheduled action: strip metadata keys, then process
each of its configurations. -/
def dcProcessAction (tm : List (JSON × JSON)) (ks : List String)
    (action : JSON) : Option JSON := do
  let a1 := removeKeys ks action
  let akvs ← asObj a1
  match getEntry akvs "scheduledActionConfigurations" with
  | some configsJ => do
    let configs ← asArr configsJ
    let configs2 ← configs.mapM (dcProcessConfig tm ks)
    pure (.obj (upsert akvs "scheduledActionConfigurations" (.arr configs2)))
  | none => pure a1

/-- Lines 207-214: attach the resolved detection-script display name to a
Linux compliance policy. -/
def dcDetectionStep (sm : List (JSON × JSON)) (item : JSON) : Option JSON :=
  if checkLinux item then
    match getDetectionScriptId item [] with
    | some p => do
      let sid ← getValueFromPath item p
      let kvs ← asObj item
      let r ← pyDictGet sm sid
      pure (JSON.obj (upsert kvs "detectionScriptName" (r.getD .null)))
    | none => pure item
  else pure item

/-- Lines 206-226: per-record enrichment of one Device Compliance policy:
attach the detection-script display name for Linux policies, attach the
record's scheduled actions from the Resolution Map, then resolve
notification template names inside them. -/
def dcEnrichRecord (sm : List (JSON × JSON)) (am : List (String × JSON))
    (tm : List (JSON × JSON)) (ks : List String) (item : JSON) :
    Option JSON := do
  let i1 ← dcDetectionStep sm item
  let kvs1 ← asObj i1
  let pid ← getEntry kvs1 "id"
  let sa ← pyStrKeyGet am pid (.arr [])
  let kvs2 := upsert kvs1 "scheduledActionsForRule" sa
  let saJ := (getEntry kvs2 "scheduledActionsForRule").getD (.arr [])
  let actions ← asArr saJ
  let actions2 ← actions.mapM (dcProcessAction tm ks)
  pure (.obj (upsert kvs2 "scheduledActionsForRule" (.arr actions2)))

/-! ## GroupPolicyConfigurations module (`GroupPolicyConfigurations.py`) -/

/-- Lines 47-49: one Batch Request Item per primary record id (no dedup). -/
def gpcHarvestPolicyIds (items : List JSON) : Option (List JSON) :=
  items.mapM (fun item => do
    let kvs ← asObj item
    let i ← getEntry kvs "id"
    pure (mkIdItem i))

/-- Lines 72-82: one composite Batch Request Item
`{policyId}/definitionValues/{definitionId}` per definition of each policy. -/
def gpcHarvestPresRequests (defsMap : List (String × JSON))
    (items : List JSON) : Option (List JSON) :=
  items.foldlM (fun acc item => do
    let kvs ← asObj item
    let pid ← getEntry kvs "id"
    let defs ← pyStrKeyGet defsMap pid (.arr [])
    let defsL ← asArr defs
    defsL.foldlM (fun acc2 d => do
      let dkvs ← asObj d
      let did ← getEntry dkvs "id"
      pure (acc2 ++ [mkIdItem (.str (jsonFormat pid ++ "/definitionValues/" ++
        jsonFormat did))])) acc) []

/-- Lines 94-101: build the presentation Resolution Map keyed by the part of
the envelope id before `/presentationValues`. -/
def gpcBuildPresMap (responses : List JSON) : Option (List (String × JSON)) :=
  responses.foldlM (fun m resp => do
    let kvs ← asObj resp
    match getEntry kvs "body" with
    | some body =>
      if truthy body then do
        let bkvs ← asObj body
        match getEntry bkvs "value" with
        | some v =>
          if truthy v then do
            let sid ← envelopeIdString kvs
            match substringPrefix ("/presentationValues").data sid.data [] with
            | some key => pure (upsert m key v)
            | none => pure m
          else pure m
        | none => pure m
      else pure m
    | none => pure m) []

/-- Lines 109-111: attach the matching presentation values inside one
definition value. -/
def gpcDefStep (presMap : List (String × JSON)) (pid : JSON) (d : JSON) :
    Option JSON := do
  let dkvs ← asObj d
  let did ← getEntry dkvs "id"
  let key := jsonFormat pid ++ "/definitionValues/" ++ jsonFormat did
  let pres := (getEntry presMap key).getD (.arr [])
  pure (JSON.obj (upsert dkvs "presentationValues" pres))

/-- Lines 104-111: assemble one record: attach its definition values and,
inside each, the matching presentation values. -/
def gpcAssembleRecord (defsMap presMap : List (String × JSON))
    (item : JSON) : Option JSON := do
  let kvs ← asObj item
  let pid ← getEntry kvs "id"
  let defs ← pyStrKeyGet defsMap pid (.arr [])
  let defsL ← asArr defs
  let defs2 ← defsL.mapM (gpcDefStep presMap pid)
  pure (.obj (upsert kvs "definitionValues" (.arr defs2)))

/-- Lines 46-111: the whole Group Policy Configurations enrichment pass,
returning the mutated value alongside the batch calls issued. -/
def gpcEnrichValue (batch : BatchCall → List JSON) (value : JSON) :
    Option JSON × List BatchCall :=
  match asArr value with
  | none => (none, [])
  | some items =>
    match gpcHarvestPolicyIds items with
    | none => (none, [])
    | some defReqs =>
      let defCalls := if defReqs.isEmpty then []
        else [⟨defReqs, "/beta/deviceManagement/groupPolicyConfigurations",
              "/definitionValues?$expand=definition", "GET"⟩]
      match buildEnvelopeValueMap (defCalls.map batch).flatten with
      | none => (none, defCalls)
      | some defsMap =>
        match gpcHarvestPresRequests defsMap items with
        | none => (none, defCalls)
        | some presReqs =>
          let presCalls := if presReqs.isEmpty then []
            else [⟨presReqs, "/beta/deviceManagement/groupPolicyConfigurations",
                  "/presentationValues?$expand=presentation", "GET"⟩]
          match gpcBuildPresMap (presCalls.map batch).flatten with
          | none => (none, defCalls ++ presCalls)
          | some presMap =>
            match items.mapM (gpcAssembleRecord defsMap presMap) with
            | none => (none, defCalls ++ presCalls)
            | some items2 => (some (.arr items2), defCalls ++ presCalls)

/-- Main method `GroupPolicyConfigurationsBackupModule.main` (lines 29-129). -/
def gpcMain (fetch : Option JSON) (batch : BatchCall → List JSON)
    (process : JSON → Option JSON) : ModuleRun :=
  match fetch with
  | none => ⟨.fatalLogged "Error getting Group Policy Configuration data", []⟩
  | some g =>
    match asObj g with
    | none => ⟨.raised, []⟩
    | some kvs =>
      match getEntry kvs "value" with
      | none => ⟨.raised, []⟩
      | some value =>
        match gpcEnrichValue batch value with
        | (none, calls) => ⟨.raised, calls⟩
        | (some value2, calls) =>
          match process value2 with
          | none =>
            ⟨.fatalLogged "Error processing Group Policy Configuration data", calls⟩
          | some r => ⟨.ok r, calls⟩

/-! ## Roles module (`Roles.py`) -/

/-- Lines 77: one Batch Request Item per primary role id. -/
def rolesHarvestRoleIds (items : List JSON) : Option (List JSON) :=
  items.mapM (fun item => do
    let kvs ← asObj item
    let i ← getEntry kvs "id"
    pure (mkIdItem i))

/-- Lines 96-103: one Batch Request Item per assignment id found in the
assignments Resolution Map entry of each record. -/
def rolesHarvestAssignmentIds (am : List (String × JSON))
    (items : List JSON) : Option (List JSON) :=
  items.foldlM (fun acc item => do
    let kvs ← asObj item
    let pid ← getEntry kvs "id"
    let asg ← pyStrKeyGet am pid (.arr [])
    let asgL ← asArr asg
    asgL.foldlM (fun a2 a => do
      let akvs ← asObj a
      let aid ← getEntry akvs "id"
      pure (a2 ++ [mkIdItem aid])) acc) []

/-- Lines 121-125: one assignment detail's contribution to the group-id set. -/
def rolesGroupStep (s : List JSON) (kv : JSON × JSON) : Option (List JSON) := do
  let dkvs ← asObj kv.2
  let s1 ←
    match getEntry dkvs "scopeMembers" with
    | some v =>
      if truthy v then do
        let l ← asArr v
        l.foldlM sinsert s
      else pure s
    | none => pure s
  match getEntry dkvs "members" with
  | some v =>
    if truthy v then do
      let l ← asArr v
      l.foldlM sinsert s1
    else pure s1
  | none => pure s1

/-- Lines 119-125: the deduplicated union of `scopeMembers` and `members`
over all assignment details. -/
def rolesHarvestGroupIds (dm : List (JSON × JSON)) : Option (List JSON) :=
  dm.foldlM rolesGroupStep []

/-- Lines 149-170: one assignment's contribution to a record's
`roleAssignments` list: resolve its details, replace group ids by display
names in `scopeMembers` and `members`, drop `resourceScopes`. -/
def rolesAssignmentStep (dm gm : List (JSON × JSON)) (ks : List String)
    (acc : List JSON) (a : JSON) : Option (List JSON) := do
  let akvs ← asObj a
  let aid ← getEntry akvs "id"
  let detOpt ← pyDictGet dm aid
  match detOpt with
  | some det =>
    if truthy det then do
      let det1 := removeKeys ks det
      let dkvs ← asObj det1
      let det2 ←
        match getEntry dkvs "scopeMembers" with
        | some sv =>
          if truthy sv then do
            let l ← asArr sv
            let l2 ← l.mapM (fun g => do
              let r ← pyDictGet gm g
              pure (r.getD g))
            pure (JSON.obj (upsert dkvs "scopeMembers" (.arr l2)))
          else pure det1
        | none => pure det1
      let d2kvs ← asObj det2
      let det3 ←
        match getEntry d2kvs "members" with
        | some mv =>
          if truthy mv then do
            let l ← asArr mv
            let l2 ← l.mapM (fun g => do
              let r ← pyDictGet gm g
              pure (r.getD g))
            pure (JSON.obj (upsert d2kvs "members" (.arr l2)))
          else pure det2
        | none => pure det2
      let d3kvs ← asObj det3
      pure (acc ++ [JSON.obj (eraseKey d3kvs "resourceScopes")])
    else pure acc
  | none => pure acc

/-- Lines 144-170: per-record stage-5 assembly: attach `roleAssignments`
built from resolved assignment details, with group ids replaced in place by
resolved display names. -/
def rolesEnrichRecord (am : List (String × JSON)) (dm gm : List (JSON × JSON))
    (ks : List String) (item : JSON) : Option JSON := do
  let kvs ← asObj item
  let pid ← getEntry kvs "id"
  let assignments ← pyStrKeyGet am pid (.arr [])
  if truthy assignments then do
    let asgL ← asArr assignments
    let ras ← asgL.foldlM (rolesAssignmentStep dm gm ks) []
    pure (.obj (upsert kvs "roleAssignments" (.arr ras)))
  else pure item

/-- Lines 173-175: unconditional cleanup of one record:
`item.pop("permissions", None)` then
`item["rolePermissions"][0].pop("actions", None)` (the latter outside any
try/except, raising when `rolePermissions` is absent or empty). -/
def rolesCleanupRecord (item : JSON) : Option JSON := do
  let kvs ← asObj item
  let kvs1 := eraseKey kvs "permissions"
  let rp ← getEntry kvs1 "rolePermissions"
  let rpL ← asArr rp
  match rpL with
  | [] => none
  | first :: rest => do
    let fkvs ← asObj first
    pure (.obj (upsert kvs1 "rolePermissions"
      (.arr (JSON.obj (eraseKey fkvs "actions") :: rest))))

/-- Lines 75-178: the whole Roles enrichment pass: the five assignment
stages (skipped entirely when `"assignments"` is excluded), then the
unconditional cleanup, returning the mutated value alongside the batch
calls issued. -/
def rolesEnrichValue (batch : BatchCall → List JSON) (exclude : List String)
    (ks : List String) (value : JSON) : Option JSON × List BatchCall :=
  match asArr value with
  | none => (none, [])
  | some items =>
    if "assignments" ∈ exclude then
      match items.mapM rolesCleanupRecord with
      | none => (none, [])
      | some items2 => (some (.arr items2), [])
    else
      match rolesHarvestRoleIds items with
      | none => (none, [])
      | some roleIds =>
        let calls1 := if roleIds.isEmpty then []
          else [⟨roleIds, "/beta/deviceManagement/roleDefinitions",
                "/roleAssignments", "GET"⟩]
        match buildEnvelopeValueMap (calls1.map batch).flatten with
        | none => (none, calls1)
        | some am =>
          match rolesHarvestAssignmentIds am items with
          | none => (none, calls1)
          | some aids =>
            let calls2 := if aids.isEmpty then []
              else [⟨aids, "/beta/deviceManagement/roleAssignments", "", "GET"⟩]
            match buildBodyByIdMap (calls2.map batch).flatten with
            | none => (none, calls1 ++ calls2)
            | some dm =>
              match rolesHarvestGroupIds dm with
              | none => (none, calls1 ++ calls2)
              | some gids =>
                let calls3 := if gids.isEmpty then []
                  else [⟨gids.map mkIdItem, "/beta/groups",
                        "?$select=displayName", "GET"⟩]
                match buildNameByIdMap (calls3.map batch).flatten with
                | none => (none, calls1 ++ calls2 ++ calls3)
                | some gm =>
                  match items.mapM (rolesEnrichRecord am dm gm ks) with
                  | none => (none, calls1 ++ calls2 ++ calls3)
                  | some items2 =>
                    match items2.mapM rolesCleanupRecord with
                    | none => (none, calls1 ++ calls2 ++ calls3)
                    | some items3 =>
                      (some (.arr items3), calls1 ++ calls2 ++ calls3)

/-- Main method `RolesBackupModule.main` (lines 57-193). -/
def rolesMain (fetch : Option JSON) (batch : BatchCall → List JSON)
    (exclude : List String) (ks : List String)
    (process : JSON → Option JSON) : ModuleRun :=
  match fetch with
  | none => ⟨.fatalLogged "Error getting Role data", []⟩
  | some g =>
    match asObj g with
    | none => ⟨.raised, []⟩
    | some kvs =>
      match getEntry kvs "value" with
      | none => ⟨.raised, []⟩
      | some value =>
        match rolesEnrichValue batch exclude ks value with
        | (none, calls) => ⟨.raised, calls⟩
        | (some value2, calls) =>
          match process value2 with
          | none => ⟨.fatalLogged "Error processing Role data", calls⟩
          | some r => ⟨.ok r, calls⟩

/-! ## General lemmas about the embedding primitives -/

/-- Lookup of a top-level field of a record. -/
def jLookup (j : JSON) (k : String) : Option JSON :=
  match j with
  | .obj kvs => getEntry kvs k
  | _ => none

/-- Key-presence test on a record (`k in item`). -/
def jHasKey (j : JSON) (k : String) : Bool :=
  (jLookup j k).isSome

theorem getEntry_upsert_self (kvs : List (String × JSON)) (k : String) (v : JSON) :
    getEntry (upsert kvs k v) k = some v := by
  induction kvs with
  | nil => simp [upsert, getEntry]
  | cons e rest ih =>
    obtain ⟨k', v'⟩ := e
    by_cases h : k' = k
    · simp [upsert, h, getEntry]
    · simp [upsert, h, getEntry, ih]

theorem getEntry_upsert_ne (kvs : List (String × JSON)) (k : String) (v : JSON)
    (k' : String) (h : k' ≠ k) :
    getEntry (upsert kvs k v) k' = getEntry kvs k' := by
  induction kvs with
  | nil => simp [upsert, getEntry, Ne.symm h]
  | cons e rest ih =>
    obtain ⟨k0, v0⟩ := e
    by_cases h0 : k0 = k
    · subst h0
      simp [upsert, getEntry, Ne.symm h]
    · simp [upsert, h0, getEntry, ih]

theorem getEntry_eraseKey_ne (kvs : List (String × JSON)) (k k' : String)
    (h : k' ≠ k) :
    getEntry (eraseKey kvs k) k' = getEntry kvs k' := by
  induction kvs with
  | nil => simp [eraseKey, getEntry]
  | cons e rest ih =>
    obtain ⟨k0, v0⟩ := e
    rw [show eraseKey ((k0, v0) :: rest) k =
      if k0 ≠ k then (k0, v0) :: eraseKey rest k else eraseKey rest k from by
        simp [eraseKey, List.filter_cons]]
    by_cases h0 : k0 = k
    · subst h0
      have h2 : k0 ≠ k' := Ne.symm h
      simp [getEntry, h2, ih]
    · simp only [h0, ne_eq, not_false_iff, if_true, getEntry]
      by_cases h1 : k0 = k'
      · simp [h1]
      · simp [h1, ih]

theorem foldlM_option_invariant {α σ : Type} (P : σ → Prop)
    (f : σ → α → Option σ)
    (hf : ∀ s a s', P s → f s a = some s' → P s') :
    ∀ (l : List α) (s s' : σ), P s → l.foldlM f s = some s' → P s' := by
  intro l
  induction l with
  | nil => intro s s' hP h; simp at h; rwa [← h]
  | cons a l ih =>
    intro s s' hP h
    rw [List.foldlM_cons] at h
    cases hfa : f s a with
    | none => rw [hfa] at h; simp at h
    | some s1 =>
      rw [hfa] at h
      simp at h
      exact ih s1 s' (hf s a s1 hP hfa) h

theorem sinsert_mem (s : List JSON) (x : JSON) (s' : List JSON)
    (h : sinsert s x = some s') :
    ∀ y, y ∈ s' ↔ y ∈ s ∨ y = x := by
  intro y
  unfold sinsert at h
  by_cases hh : hashable x = true
  · simp [hh] at h
    by_cases hx : x ∈ s
    · simp [hx] at h
      subst h
      constructor
      · intro h1; exact Or.inl h1
      · rintro (h1 | h1); exact h1; rwa [h1]
    · simp [hx] at h
      subst h
      simp
  · simp [hh] at h

theorem sinsert_nodup (s : List JSON) (x : JSON) (s' : List JSON)
    (h : sinsert s x = some s') (hs : s.Nodup) : s'.Nodup := by
  unfold sinsert at h
  by_cases hh : hashable x = true
  · simp [hh] at h
    by_cases hx : x ∈ s
    · simp [hx] at h; rwa [← h]
    · simp [hx] at h
      subst h
      simp [List.nodup_append, hs, hx]
  · simp [hh] at h

theorem foldlM_sinsert_mem (l : List JSON) :
    ∀ (s s' : List JSON), l.foldlM sinsert s = some s' →
      ∀ x, (x ∈ s' ↔ x ∈ s ∨ x ∈ l) := by
  induction l with
  | nil => intro s s' h x; simp at h; rw [← h]; simp
  | cons a l ih =>
    intro s s' h x
    rw [List.foldlM_cons] at h
    cases hfa : sinsert s a with
    | none => rw [hfa] at h; simp at h
    | some s1 =>
      rw [hfa] at h
      simp at h
      rw [ih s1 s' h x, sinsert_mem s a s1 hfa x]
      constructor
      · rintro ((h1 | h1) | h1)
        · exact Or.inl h1
        · exact Or.inr (by simp [h1])
        · exact Or.inr (by simp [h1])
      · rintro (h1 | h1)
        · exact Or.inl (Or.inl h1)
        · rcases List.mem_cons.mp h1 with h2 | h2
          · exact Or.inl (Or.inr h2)
          · exact Or.inr h2

theorem foldlM_sinsert_nodup (l : List JSON) :
    ∀ (s s' : List JSON), l.foldlM sinsert s = some s' →
      s.Nodup → s'.Nodup := by
  intro s s' h
  exact fun hs => foldlM_option_invariant List.Nodup sinsert
    (fun s a s' hP hstep => sinsert_nodup s a s' hstep hP) l s s' hs h

theorem mapM_option_forall2 {α β : Type} (f : α → Option β) :
    ∀ (l : List α) (l' : List β), l.mapM f = some l' →
      List.Forall₂ (fun a b => f a = some b) l l' := by
  intro l
  induction l with
  | nil =>
    intro l' h
    rw [List.mapM_nil] at h
    cases h
    exact List.Forall₂.nil
  | cons a l ih =>
    intro l' h
    rw [List.mapM_cons] at h
    cases hfa : f a with
    | none => rw [hfa] at h; cases h
    | some b =>
      rw [hfa] at h
      cases hrest : l.mapM f with
      | none => rw [hrest] at h; cases h
      | some l2 =>
        rw [hrest] at h
        cases h
        exact List.Forall₂.cons hfa (ih l2 hrest)

theorem mapM_option_none_of_mem {α β : Type} (f : α → Option β)
    (l : List α) (a : α) (ha : a ∈ l) (hf : f a = none) :
    l.mapM f = none := by
  induction l with
  | nil => simp at ha
  | cons x l ih =>
    rw [List.mapM_cons]
    rcases List.mem_cons.mp ha with h | h
    · subst h; rw [hf]; rfl
    · cases hfx : f x with
      | none => rfl
      | some b => rw [ih h]; rfl

theorem forall2_mem_left {α β : Type} {R : α → β → Prop}
    {l : List α} {l' : List β} (h : List.Forall₂ R l l') {a : α}
    (ha : a ∈ l) : ∃ b ∈ l', R a b := by
  induction h with
  | nil => simp at ha
  | cons hR hrest ih =>
    rcases List.mem_cons.mp ha with h1 | h1
    · subst h1; exact ⟨_, List.mem_cons_self _ _, hR⟩
    · obtain ⟨b, hb, hRb⟩ := ih h1
      exact ⟨b, List.mem_cons_of_mem _ hb, hRb⟩

/-! ## Claim C1: correlation-key recovery -/

theorem envelopeValueStep_no_slash (m : List (String × JSON)) (s : String)
    (bkvs : List (String × JSON)) (h : containsSlash s = false) :
    envelopeValueStep m (.obj [("id", .str s), ("body", .obj bkvs)]) = some m := by
  have hbody : getEntry [("id", JSON.str s), ("body", JSON.obj bkvs)] "body"
      = some (JSON.obj bkvs) := rfl
  have hid : envelopeIdString [("id", JSON.str s), ("body", JSON.obj bkvs)]
      = some s := rfl
  have hex : extractCorrelationKey s = none := by
    simp [extractCorrelationKey, h]
  unfold envelopeValueStep
  simp only [asObj, Option.bind_eq_bind, Option.some_bind, hbody]
  by_cases ht : truthy (JSON.obj bkvs) = true
  · simp only [ht, if_true, asObj, Option.some_bind]
    cases hv : getEntry bkvs "value" with
    | none => rfl
    | some v =>
      by_cases htv : truthy v = true
      · simp only [htv, if_true, hid, Option.some_bind, hex]
        rfl
      · simp [htv]
  · simp only [Bool.not_eq_true] at ht
    rw [ht]
    simp

/-- C1 counterexample: the Correlation Key is the second-to-last
`/`-delimited segment, so for the envelope id
`"parentXYZ/definitionValues/childABC"` the parser recovers
`"definitionValues"`, not `"parentXYZ"` as the claim states. -/
theorem claim_C1_counterexample :
    extractCorrelationKey "parentXYZ/definitionValues/childABC" =
      some "definitionValues" ∧
    some "definitionValues" ≠ some "parentXYZ" := by
  constructor
  · rfl
  · decide

/-- C1 (amended): the Correlation Key is the second-to-last `/`-delimited
segment of the envelope id (so the crafted id
`"parentXYZ/definitionValues/childABC"` yields `"definitionValues"`), and
when the id contains no `/` correlation fails (`None`) and the envelope
contributes nothing to the Resolution Map. -/
theorem claim_C1 (s : String) (bkvs : List (String × JSON)) (rest : List JSON)
    (h : containsSlash s = false) :
    extractCorrelationKey s = none ∧
    buildEnvelopeValueMap
        (JSON.obj [("id", JSON.str s), ("body", JSON.obj bkvs)] :: rest) =
      buildEnvelopeValueMap rest ∧
    extractCorrelationKey "parentXYZ/definitionValues/childABC" =
      some "definitionValues" := by
  refine ⟨by simp [extractCorrelationKey, h], ?_, rfl⟩
  unfold buildEnvelopeValueMap
  rw [List.foldlM_cons, envelopeValueStep_no_slash [] s bkvs h]
  rfl

/-- Witness for C1 at a concrete envelope. -/
theorem claim_C1_witness :
    extractCorrelationKey "noslash" = none ∧
    buildEnvelopeValueMap
        (JSON.obj [("id", JSON.str "noslash"), ("body", JSON.obj [])] ::
          [JSON.obj [("id", JSON.str "p/x"), ("body",
            JSON.obj [("value", JSON.arr [JSON.null])])]]) =
      buildEnvelopeValueMap
        [JSON.obj [("id", JSON.str "p/x"), ("body",
          JSON.obj [("value", JSON.arr [JSON.null])])]] ∧
    extractCorrelationKey "parentXYZ/definitionValues/childABC" =
      some "definitionValues" :=
  claim_C1 "noslash" [] _ (by decide)

/-! ## Claim C2: App Configuration first-app enrichment -/

/-- The app loop (lines 77-84) passes over an entry: its details are absent
from the Resolution Map, or present but falsy. -/
def acSkips (m : List (JSON × JSON)) (a : JSON) : Prop :=
  pyDictGet m a = some none ∨
  ∃ d, pyDictGet m a = some (some d) ∧ truthy d = false

theorem truthy_arr_iff (xs : List JSON) : truthy (.arr xs) = true ↔ xs ≠ [] := by
  cases xs <;> simp [truthy]

/-- C2 counterexample: with `targetedMobileApps == ["app1", "app2"]` and a
resolution map resolving only app2, the code enriches from app2 — the
first *resolvable* identifier — whereas the claim says only the first
identifier app1 is ever used (which would leave the field as the raw
list when app1 does not resolve). -/
theorem claim_C2_counterexample :
    acEnrichRecord
        [(JSON.str "app2", JSON.obj [("id", JSON.str "app2"),
          ("displayName", JSON.str "Bar"), ("@odata.type", JSON.str "#t2")])]
        (fun _ => none)
        (JSON.obj [("id", JSON.str "r1"),
          ("targetedMobileApps", JSON.arr [JSON.str "app1", JSON.str "app2"])]) =
      some (JSON.obj [("id", JSON.str "r1"),
        ("targetedMobileApps", JSON.obj [("appName", JSON.str "Bar"),
          ("type", JSON.str "#t2")])]) ∧
    JSON.obj [("appName", JSON.str "Bar"), ("type", JSON.str "#t2")] ≠
      JSON.arr [JSON.str "app1", JSON.str "app2"] := by
  constructor
  · rfl
  · decide

/-- C2 (amended): for every Record with a truthy `targetedMobileApps` list,
enrichment uses the first *resolvable* targeted-app identifier — the
earliest list element whose details are present and truthy in the
Resolution Map (so when the first identifier resolves it is used even when
later ones also resolve) — replaces the list with the single object
`{appName, type}` from that app's `displayName` and `@odata.type`, and
decodes a truthy `payloadJson` field; with
`targetedMobileApps == ["app1", "app2"]` and a map containing only
`app1 -> {displayName: "Foo", "@odata.type": "#t.App"}`, the output is
`targetedMobileApps == {appName: "Foo", type: "#t.App"}`. -/
theorem claim_C2 :
    (∀ (m : List (JSON × JSON)) (apps : List JSON) (i : Nat) (d : JSON)
      (h1 : i < apps.length),
      pyDictGet m (apps.get ⟨i, h1⟩) = some (some d) → truthy d = true →
      (∀ j (hj : j < i), acSkips m (apps.get ⟨j, Nat.lt_trans hj h1⟩)) →
      acFirstResolvable m apps = some (some d)) ∧
    (∀ (m : List (JSON × JSON)) (kvs akvs : List (String × JSON))
      (apps : List JSON) (nm ty : JSON),
      getEntry kvs "targetedMobileApps" = some (.arr apps) →
      apps ≠ [] →
      acFirstResolvable m apps = some (some (.obj akvs)) →
      getEntry akvs "displayName" = some nm →
      getEntry akvs "@odata.type" = some ty →
      acEnrichApps m (.obj kvs) = some (.obj
        (upsert (eraseKey kvs "targetedMobileApps") "targetedMobileApps"
          (.obj [("appName", nm), ("type", ty)])))) ∧
    (∀ (decode : String → Option JSON) (kvs : List (String × JSON))
      (p : String) (dj : JSON),
      getEntry kvs "payloadJson" = some (.str p) → p ≠ "" →
      decode p = some dj →
      acDecodePayload decode (.obj kvs) =
        some (.obj (upsert kvs "payloadJson" dj))) ∧
    (acEnrichRecord
        [(JSON.str "app1", JSON.obj [("id", JSON.str "app1"),
          ("displayName", JSON.str "Foo"), ("@odata.type", JSON.str "#t.App")])]
        (fun _ => none)
        (JSON.obj [("id", JSON.str "r1"),
          ("targetedMobileApps", JSON.arr [JSON.str "app1", JSON.str "app2"])]) =
      some (JSON.obj [("id", JSON.str "r1"),
        ("targetedMobileApps", JSON.obj [("appName", JSON.str "Foo"),
          ("type", JSON.str "#t.App")])])) := by
  refine ⟨?_, ?_, ?_, rfl⟩
  · intro m apps
    induction apps with
    | nil => intro i d h1; exact absurd h1 (by simp)
    | cons a rest ih =>
      intro i d h1 h2 h3 h4
      cases i with
      | zero =>
        have h2' : pyDictGet m a = some (some d) := h2
        unfold acFirstResolvable
        simp only [Option.bind_eq_bind, h2', Option.some_bind, h3, if_true]
      | succ i =>
        have hskip : acSkips m a := h4 0 (Nat.succ_pos i)
        have hrest : acFirstResolvable m rest = some (some d) := by
          have h2' : pyDictGet m (rest.get ⟨i, Nat.lt_of_succ_lt_succ h1⟩) =
              some (some d) := h2
          refine ih i d (Nat.lt_of_succ_lt_succ h1) h2' h3 ?_
          intro j hj
          exact h4 (j + 1) (Nat.succ_lt_succ hj)
        unfold acFirstResolvable
        rcases hskip with hs | ⟨dj, hs, hdj⟩
        · simp only [Option.bind_eq_bind, hs, Option.some_bind]
          exact hrest
        · simp only [Option.bind_eq_bind, hs, Option.some_bind, hdj,
            Bool.false_eq_true, if_false]
          exact hrest
  · intro m kvs akvs apps nm ty hg hne hf hd ht
    unfold acEnrichApps
    simp only [asObj, Option.bind_eq_bind, Option.some_bind, hg]
    rw [(truthy_arr_iff apps).mpr hne]
    simp only [if_true, asArr, Option.some_bind, hf, asObj, hd, ht]
    rfl
  · intro decode kvs p dj hg hp hd
    unfold acDecodePayload
    simp only [asObj, Option.bind_eq_bind, Option.some_bind, hg]
    have hts : truthy (.str p) = true := by simp [truthy, hp]
    rw [hts]
    simp only [if_true, Option.some_bind, hd]
    rfl

/-- Witness for C2 at concrete inputs. -/
theorem claim_C2_witness :
    acFirstResolvable [(JSON.str "a", JSON.obj [("x", JSON.null)])]
        [JSON.str "a"] =
      some (some (JSON.obj [("x", JSON.null)])) :=
  claim_C2.1 _ _ 0 _ (by decide) (by decide) (by decide)
    (fun j hj => absurd hj (Nat.not_lt_zero j))

/-! ## Claim C3: dedup invariant, one batch call per stage -/

/-- Record `item` references identifier `x` through its
`targetedMobileApps` sequence. -/
def acReferences (item x : JSON) : Prop :=
  ∃ kvs apps, item = JSON.obj kvs ∧
    getEntry kvs "targetedMobileApps" = some (.arr apps) ∧ x ∈ apps

theorem acHarvestStep_mem (s : List JSON) (item : JSON) (s' : List JSON)
    (h : acHarvestStep s item = some s') :
    ∀ x, x ∈ s' ↔ x ∈ s ∨ acReferences item x := by
  intro x
  cases item with
  | obj kvs =>
    unfold acHarvestStep at h
    simp only [asObj, Option.bind_eq_bind, Option.some_bind] at h
    cases hg : getEntry kvs "targetedMobileApps" with
    | none => rw [hg] at h; cases h
    | some apps =>
      rw [hg] at h
      cases apps with
      | arr appsL =>
        simp only [asArr, Option.some_bind] at h
        rw [foldlM_sinsert_mem appsL s s' h x]
        constructor
        · rintro (h1 | h1)
          · exact Or.inl h1
          · exact Or.inr ⟨kvs, appsL, rfl, hg, h1⟩
        · rintro (h1 | h1)
          · exact Or.inl h1
          · obtain ⟨kvs2, apps2, heq, hg2, hx⟩ := h1
            cases heq
            rw [hg] at hg2
            cases hg2
            exact Or.inr hx
      | null => simp [asArr] at h
      | bool b => simp [asArr] at h
      | num n => simp [asArr] at h
      | str st => simp [asArr] at h
      | obj kvs2 => simp [asArr] at h
  | null => simp [acHarvestStep, asObj] at h
  | bool b => simp [acHarvestStep, asObj] at h
  | num n => simp [acHarvestStep, asObj] at h
  | str st => simp [acHarvestStep, asObj] at h
  | arr xs => simp [acHarvestStep, asObj] at h

theorem acHarvestStep_nodup (s : List JSON) (item : JSON) (s' : List JSON)
    (h : acHarvestStep s item = some s') (hs : s.Nodup) : s'.Nodup := by
  cases item with
  | obj kvs =>
    unfold acHarvestStep at h
    simp only [asObj, Option.bind_eq_bind, Option.some_bind] at h
    cases hg : getEntry kvs "targetedMobileApps" with
    | none => rw [hg] at h; cases h
    | some apps =>
      rw [hg] at h
      cases apps with
      | arr appsL =>
        simp only [asArr, Option.some_bind] at h
        exact foldlM_sinsert_nodup appsL s s' h hs
      | null => simp [asArr] at h
      | bool b => simp [asArr] at h
      | num n => simp [asArr] at h
      | str st => simp [asArr] at h
      | obj kvs2 => simp [asArr] at h
  | null => simp [acHarvestStep, asObj] at h
  | bool b => simp [acHarvestStep, asObj] at h
  | num n => simp [acHarvestStep, asObj] at h
  | str st => simp [acHarvestStep, asObj] at h
  | arr xs => simp [acHarvestStep, asObj] at h

theorem acHarvest_fold_mem (items : List JSON) :
    ∀ (s s' : List JSON), items.foldlM acHarvestStep s = some s' →
      ∀ x, (x ∈ s' ↔ x ∈ s ∨ ∃ item ∈ items, acReferences item x) := by
  induction items with
  | nil =>
    intro s s' h x
    simp at h
    rw [← h]
    simp
  | cons item items ih =>
    intro s s' h x
    rw [List.foldlM_cons] at h
    cases hstep : acHarvestStep s item with
    | none => rw [hstep] at h; cases h
    | some s1 =>
      rw [hstep] at h
      simp only [Option.bind_eq_bind, Option.some_bind] at h
      rw [ih s1 s' h x, acHarvestStep_mem s item s1 hstep x]
      constructor
      · rintro ((h1 | h1) | h1)
        · exact Or.inl h1
        · exact Or.inr ⟨item, List.mem_cons_self _ _, h1⟩
        · obtain ⟨it, hit, hr⟩ := h1
          exact Or.inr ⟨it, List.mem_cons_of_mem _ hit, hr⟩
      · rintro (h1 | ⟨it, hit, hr⟩)
        · exact Or.inl (Or.inl h1)
        · rcases List.mem_cons.mp hit with h2 | h2
          · subst h2; exact Or.inl (Or.inr hr)
          · exact Or.inr ⟨it, h2, hr⟩

theorem dcHarvestConfigStep_inv (P : List JSON → Prop)
    (hP1 : ∀ ts t ts', sinsert ts t = some ts' →
      truthy t = true → t ≠ .str zeroGuid → P ts → P ts')
    (ts : List JSON) (config : JSON) (ts' : List JSON)
    (h : dcHarvestConfigStep ts config = some ts') (hts : P ts) : P ts' := by
  cases config with
  | obj ckvs =>
    unfold dcHarvestConfigStep at h
    simp only [asObj, Option.bind_eq_bind, Option.some_bind] at h
    cases hg : getEntry ckvs "notificationTemplateId" with
    | none => rw [hg] at h; cases h; exact hts
    | some t =>
      simp only [hg] at h
      by_cases hc : (truthy t = true ∧ t ≠ JSON.str zeroGuid)
      · rw [if_pos hc] at h
        exact hP1 ts t ts' h hc.1 hc.2 hts
      · rw [if_neg hc] at h
        cases h
        exact hts
  | null => simp [dcHarvestConfigStep, asObj] at h
  | bool b => simp [dcHarvestConfigStep, asObj] at h
  | num n => simp [dcHarvestConfigStep, asObj] at h
  | str st => simp [dcHarvestConfigStep, asObj] at h
  | arr xs => simp [dcHarvestConfigStep, asObj] at h

theorem dcHarvestActionStep_inv (P : List JSON → Prop)
    (hP1 : ∀ ts t ts', sinsert ts t = some ts' →
      truthy t = true → t ≠ .str zeroGuid → P ts → P ts')
    (ts : List JSON) (action : JSON) (ts' : List JSON)
    (h : dcHarvestActionStep ts action = some ts') (hts : P ts) : P ts' := by
  cases action with
  | obj akvs =>
    unfold dcHarvestActionStep at h
    simp only [asObj, Option.bind_eq_bind, Option.some_bind] at h
    cases hc : asArr ((getEntry akvs "scheduledActionConfigurations").getD (.arr [])) with
    | none => rw [hc] at h; cases h
    | some configs =>
      rw [hc] at h
      simp only [Option.some_bind] at h
      exact foldlM_option_invariant P (dcHarvestConfigStep)
        (fun s a s' hp hstep => dcHarvestConfigStep_inv P hP1 s a s' hstep hp)
        configs ts ts' hts h
  | null => simp [dcHarvestActionStep, asObj] at h
  | bool b => simp [dcHarvestActionStep, asObj] at h
  | num n => simp [dcHarvestActionStep, asObj] at h
  | str st => simp [dcHarvestActionStep, asObj] at h
  | arr xs => simp [dcHarvestActionStep, asObj] at h

theorem dcScheduledStep_inv (P : List JSON → Prop)
    (hP1 : ∀ ts t ts', sinsert ts t = some ts' →
      truthy t = true → t ≠ .str zeroGuid → P ts → P ts')
    (acc : List (String × JSON) × List JSON) (resp : JSON)
    (acc' : List (String × JSON) × List JSON)
    (h : dcScheduledStep acc resp = some acc') (hacc : P acc.2) : P acc'.2 := by
  cases resp with
  | obj kvs =>
    unfold dcScheduledStep at h
    simp only [asObj, Option.bind_eq_bind, Option.some_bind] at h
    cases hg : getEntry kvs "body" with
    | none => rw [hg] at h; cases h; exact hacc
    | some body =>
      simp only [hg] at h
      by_cases htb : truthy body = true
      · rw [if_pos htb] at h
        cases body with
        | obj bkvs =>
          simp only [asObj, Option.some_bind] at h
          cases hv : getEntry bkvs "value" with
          | none => rw [hv] at h; cases h; exact hacc
          | some v =>
            simp only [hv] at h
            by_cases htv : truthy v = true
            · rw [if_pos htv] at h
              cases hsid : envelopeIdString kvs with
              | none => rw [hsid] at h; cases h
              | some sid =>
                simp only [hsid, Option.bind_eq_bind, Option.some_bind] at h
                cases hex : extractCorrelationKey sid with
                | none => rw [hex] at h; cases h; exact hacc
                | some pid =>
                  simp only [hex] at h
                  by_cases hpid : pid = ""
                  · rw [if_pos hpid] at h; cases h; exact hacc
                  · rw [if_neg hpid] at h
                    cases hva : asArr v with
                    | none => rw [hva] at h; cases h
                    | some actions =>
                      simp only [hva, Option.bind_eq_bind, Option.some_bind] at h
                      cases hfold : actions.foldlM dcHarvestActionStep acc.2 with
                      | none => rw [hfold] at h; cases h
                      | some tids2 =>
                        simp only [hfold] at h
                        cases h
                        exact foldlM_option_invariant P dcHarvestActionStep
                          (fun s a s' hp hstep =>
                            dcHarvestActionStep_inv P hP1 s a s' hstep hp)
                          actions acc.2 tids2 hacc hfold
            · rw [if_neg htv] at h
              cases h
              exact hacc
        | null => simp [asObj] at h
        | bool b => simp [asObj] at h
        | num n => simp [asObj] at h
        | str st => simp [asObj] at h
        | arr xs => simp [asObj] at h
      · rw [if_neg htb] at h
        cases h
        exact hacc
  | null => simp [dcScheduledStep, asObj] at h
  | bool b => simp [dcScheduledStep, asObj] at h
  | num n => simp [dcScheduledStep, asObj] at h
  | str st => simp [dcScheduledStep, asObj] at h
  | arr xs => simp [dcScheduledStep, asObj] at h

theorem rolesGroupStep_nodup (s : List JSON) (kv : JSON × JSON)
    (s' : List JSON) (h : rolesGroupStep s kv = some s') (hs : s.Nodup) :
    s'.Nodup := by
  obtain ⟨k0, det⟩ := kv
  cases det with
  | obj dkvs =>
    unfold rolesGroupStep at h
    simp only [asObj, Option.bind_eq_bind, Option.some_bind] at h
    cases hg1 : getEntry dkvs "scopeMembers" with
    | none =>
      simp only [hg1, Option.pure_def, Option.bind_eq_bind, Option.some_bind] at h
      cases hg2 : getEntry dkvs "members" with
      | none => simp only [hg2] at h; cases h; exact hs
      | some v =>
        simp only [hg2, Option.bind_eq_bind, Option.some_bind] at h
        by_cases htv : truthy v = true
        · rw [if_pos htv] at h
          cases hva : asArr v with
          | none => rw [hva] at h; cases h
          | some l =>
            simp only [hva, Option.some_bind] at h
            exact foldlM_sinsert_nodup l s s' h hs
        · rw [if_neg htv] at h; cases h; exact hs
    | some v1 =>
      simp only [hg1, Option.bind_eq_bind, Option.some_bind] at h
      have hmid : ∀ (s1 : List JSON), s1.Nodup →
          (match getEntry dkvs "members" with
            | some v =>
              if truthy v = true then
                (asArr v).bind fun l => l.foldlM sinsert s1
              else pure s1
            | none => pure s1) = some s' → s'.Nodup := by
        intro s1 hs1 hm
        cases hg2 : getEntry dkvs "members" with
        | none => simp only [hg2] at hm; cases hm; exact hs1
        | some v =>
          simp only [hg2, Option.bind_eq_bind, Option.some_bind] at hm
          by_cases htv : truthy v = true
          · rw [if_pos htv] at hm
            cases hva : asArr v with
            | none => rw [hva] at hm; cases hm
            | some l =>
              simp only [hva, Option.some_bind] at hm
              exact foldlM_sinsert_nodup l s1 s' hm hs1
          · rw [if_neg htv] at hm; cases hm; exact hs1
      by_cases htv1 : truthy v1 = true
      · rw [if_pos htv1] at h
        cases hva1 : asArr v1 with
        | none =>
          simp only [hva1, Option.bind_eq_bind, Option.none_bind] at h
          exact Option.noConfusion h
        | some l1 =>
          simp only [hva1, Option.bind_eq_bind, Option.some_bind] at h
          cases hfold : l1.foldlM sinsert s with
          | none =>
            simp only [hfold, Option.bind_eq_bind, Option.none_bind] at h
            exact Option.noConfusion h
          | some s1 =>
            simp only [hfold, Option.bind_eq_bind, Option.some_bind] at h
            exact hmid s1 (foldlM_sinsert_nodup l1 s s1 hfold hs) h
      · rw [if_neg htv1] at h
        simp only [Option.pure_def, Option.bind_eq_bind, Option.some_bind] at h
        exact hmid s hs h
  | null => simp [rolesGroupStep, asObj] at h
  | bool b => simp [rolesGroupStep, asObj] at h
  | num n => simp [rolesGroupStep, asObj] at h
  | str st => simp [rolesGroupStep, asObj] at h
  | arr xs => simp [rolesGroupStep, asObj] at h

/-- C3 counterexample: a primary fetch whose single record references
zero app identifiers (`targetedMobileApps == []`).  The claim demands
exactly one batch call for the stage (with M = 0 items); the module issues
none (`if app_ids:` guards the call). -/
theorem claim_C3_counterexample :
    (acEnrichValue (fun _ => []) (fun _ => none)
        (.arr [.obj [("id", .str "r1"), ("targetedMobileApps", .arr [])]])).2 =
      [] ∧
    ((acEnrichValue (fun _ => []) (fun _ => none)
        (.arr [.obj [("id", .str "r1"),
          ("targetedMobileApps", .arr [])]])).2).length ≠ 1 := by
  constructor
  · rfl
  · decide

/-- C3 (amended): for a batched stage, the module issues *at most* one
batch call: exactly one whose item list holds exactly the M deduplicated
identifiers when M ≥ 1, and none when M = 0 — never one request per
referencing Record.  For App Configuration the harvested set is exactly
the deduplicated set of identifiers referenced by the records; for the
Device Compliance template stage and the Roles group stage the harvested
set is likewise duplicate-free and sent in a single call. -/
theorem claim_C3 :
    (∀ (items ids : List JSON), acHarvestAppIds items = some ids →
      ids.Nodup ∧
      (∀ x, x ∈ ids ↔ ∃ item ∈ items, acReferences item x) ∧
      (ids = [] → acAppCalls ids = []) ∧
      (ids ≠ [] → acAppCalls ids =
        [⟨ids.map mkIdItem, "/beta/deviceAppManagement/mobileApps", "",
          "GET"⟩])) ∧
    (∀ (responses : List JSON) (m : List (String × JSON)) (tids : List JSON),
      dcBuildScheduled responses = some (m, tids) →
      tids.Nodup ∧
      (tids = [] → dcTemplateCalls tids = []) ∧
      (tids ≠ [] → dcTemplateCalls tids =
        [⟨tids.map mkIdItem,
          "/beta/deviceManagement/notificationMessageTemplates", "", "GET"⟩])) ∧
    (∀ (dm : List (JSON × JSON)) (gids : List JSON),
      rolesHarvestGroupIds dm = some gids → gids.Nodup) := by
  refine ⟨?_, ?_, ?_⟩
  · intro items ids h
    refine ⟨?_, ?_, ?_, ?_⟩
    · exact foldlM_option_invariant List.Nodup acHarvestStep
        (fun s a s' hp hstep => acHarvestStep_nodup s a s' hstep hp)
        items [] ids (List.nodup_nil) h
    · intro x
      rw [acHarvest_fold_mem items [] ids h x]
      simp
    · intro he; subst he; rfl
    · intro hne
      unfold acAppCalls
      rw [if_neg (by simpa [List.isEmpty_iff] using hne)]
  · intro responses m tids h
    refine ⟨?_, ?_, ?_⟩
    · have := foldlM_option_invariant
        (fun acc : List (String × JSON) × List JSON => acc.2.Nodup)
        dcScheduledStep
        (fun s a s' hp hstep => dcScheduledStep_inv List.Nodup
          (fun ts t ts' hins _ _ hn => sinsert_nodup ts t ts' hins hn)
          s a s' hstep hp)
        responses ([], []) (m, tids) List.nodup_nil h
      exact this
    · intro he; subst he; rfl
    · intro hne
      unfold dcTemplateCalls
      rw [if_neg (by simpa [List.isEmpty_iff] using hne)]
  · intro dm gids h
    exact foldlM_option_invariant List.Nodup rolesGroupStep
      (fun s a s' hp hstep => rolesGroupStep_nodup s a s' hstep hp)
      dm [] gids List.nodup_nil h

/-- Witness for C3: a concrete stage with duplicate references yields a
duplicate-free harvested set. -/
theorem claim_C3_witness :
    (([JSON.str "a", JSON.str "b"] : List JSON)).Nodup :=
  (claim_C3.1
    [JSON.obj [("targetedMobileApps",
      JSON.arr [JSON.str "a", JSON.str "b", JSON.str "a"])]]
    [JSON.str "a", JSON.str "b"] (by rfl)).1

/-! ## Claim C4: first-match path discovery -/

mutual

/-- Following the spec's words, for the refinement comparison: does a value
equal to the sentinel occur anywhere in the tree — as a mapping value or a
sequence element, at any depth? -/
def specSentinelOccurs : JSON → Bool
  | .str s => s = linuxSentinel
  | .obj kvs => specSentinelOccursEntries kvs
  | .arr xs => specSentinelOccursList xs
  | _ => false

/-- Spec-side occurrence check over a mapping's entries. -/
def specSentinelOccursEntries : List (String × JSON) → Bool
  | [] => false
  | (_, v) :: rest => specSentinelOccurs v || specSentinelOccursEntries rest

/-- Spec-side occurrence check over a sequence. -/
def specSentinelOccursList : List JSON → Bool
  | [] => false
  | x :: rest => specSentinelOccurs x || specSentinelOccursList rest

end

theorem optMatch_eq_head_append (l1 l2 : List (List PathElem)) :
    (match l1.head? with
     | some p => some p
     | none => l2.head?) = (l1 ++ l2).head? := by
  cases l1 <;> simp

theorem getDSI_head_aux : ∀ (n : Nat),
    (∀ d : JSON, sizeOf d ≤ n → ∀ path,
      getDetectionScriptId d path = (sentinelPaths d path).head?) ∧
    (∀ kvs : List (String × JSON), sizeOf kvs ≤ n → ∀ path,
      getDSIEntries kvs path = (sentinelPathsEntries kvs path).head?) ∧
    (∀ (k : String) (xs : List JSON), sizeOf xs ≤ n → ∀ i path,
      getDSIList k xs i path = (sentinelPathsList k xs i path).head?) := by
  intro n
  induction n with
  | zero =>
    refine ⟨?_, ?_, ?_⟩
    · intro d hd; exfalso; cases d <;> simp at hd
    · intro kvs hk; exfalso; cases kvs <;> simp at hk
    · intro k xs hx; exfalso; cases xs <;> simp at hx
  | succ n ih =>
    obtain ⟨ihd, ihe, ihl⟩ := ih
    refine ⟨?_, ?_, ?_⟩
    · intro d hd path
      cases d with
      | obj kvs =>
        have hk : sizeOf kvs ≤ n := by simp at hd; omega
        show getDSIEntries kvs path = (sentinelPathsEntries kvs path).head?
        exact ihe kvs hk path
      | null => rfl
      | bool b => rfl
      | num m => rfl
      | str s => rfl
      | arr xs => rfl
    · intro kvs hk path
      cases kvs with
      | nil => rfl
      | cons e rest =>
        obtain ⟨k, v⟩ := e
        have hrest : sizeOf rest ≤ n := by simp at hk; omega
        cases v with
        | obj kvs2 =>
          have h2 : sizeOf kvs2 ≤ n := by simp at hk; omega
          simp only [getDSIEntries, sentinelPathsEntries]
          rw [ihe kvs2 h2 (path ++ [PathElem.key k]), ihe rest hrest path,
            optMatch_eq_head_append]
        | arr xs =>
          have h2 : sizeOf xs ≤ n := by simp at hk; omega
          simp only [getDSIEntries, sentinelPathsEntries]
          rw [ihl k xs h2 0 path, ihe rest hrest path, optMatch_eq_head_append]
        | null =>
          have hb : ¬(JSON.null = JSON.str linuxSentinel) := by simp
          simp only [getDSIEntries, sentinelPathsEntries]
          rw [if_neg hb, if_neg hb, ihe rest hrest path]
        | bool b =>
          have hb : ¬(JSON.bool b = JSON.str linuxSentinel) := by simp
          simp only [getDSIEntries, sentinelPathsEntries]
          rw [if_neg hb, if_neg hb, ihe rest hrest path]
        | num m =>
          have hb : ¬(JSON.num m = JSON.str linuxSentinel) := by simp
          simp only [getDSIEntries, sentinelPathsEntries]
          rw [if_neg hb, if_neg hb, ihe rest hrest path]
        | str s =>
          simp only [getDSIEntries, sentinelPathsEntries]
          by_cases hb : JSON.str s = JSON.str linuxSentinel
          · rw [if_pos hb, if_pos hb]
            rfl
          · rw [if_neg hb, if_neg hb, ihe rest hrest path]
    · intro k xs hx i path
      cases xs with
      | nil => rfl
      | cons x rest =>
        have hrest : sizeOf rest ≤ n := by simp at hx; omega
        have hx1 : sizeOf x ≤ n := by simp at hx; omega
        simp only [getDSIList, sentinelPathsList]
        rw [ihd x hx1 (path ++ [PathElem.key k, PathElem.idx i]),
          ihl k rest hrest (i + 1) path, optMatch_eq_head_append]

/-- C4 counterexample: in the tree
`{"a": ["linux_customcompliance_discoveryscript"]}` a value equal to the
sentinel exists (as a direct sequence element), yet the search returns the
"not found" result: the code never matches a sentinel that is a direct
sequence element, contradicting "returns the first traversal path whose
value equals the sentinel ... returns not-found when no match exists at
any depth". -/
theorem claim_C4_counterexample :
    specSentinelOccurs (JSON.obj [("a",
      JSON.arr [JSON.str "linux_customcompliance_discoveryscript"])]) = true ∧
    getDetectionScriptId (JSON.obj [("a",
      JSON.arr [JSON.str "linux_customcompliance_discoveryscript"])]) [] =
      none := by
  constructor
  · rfl
  · rfl

/-- C4 (amended): path-discovery is a depth-first search returning the
first traversal path — mapping keys in insertion order, then sequence
index order, no further matches searched — of a *mapping that holds the
sentinel as a direct scalar value* (sentinels that are direct sequence
elements are not matched; the returned path addresses the mapping holding
the sentinel); it returns the distinct not-found result `none` exactly
when no such match exists at any depth, and the companion path resolver
applied to a discovered path extracts the sibling field
`simpleSettingValue.value` of the mapping at that path. -/
theorem claim_C4 (d : JSON) :
    getDetectionScriptId d [] = (sentinelPaths d []).head? ∧
    (getDetectionScriptId d [] = none ↔ sentinelPaths d [] = []) ∧
    (∀ (p : List PathElem) (tkvs svkvs : List (String × JSON)),
      p.foldlM pathStep d = some (.obj tkvs) →
      getEntry tkvs "simpleSettingValue" = some (.obj svkvs) →
      getValueFromPath d p = getEntry svkvs "value") := by
  have hmain := (getDSI_head_aux (sizeOf d)).1 d (Nat.le_refl _)
  refine ⟨hmain [], ?_, ?_⟩
  · rw [hmain []]
    exact List.head?_eq_none_iff
  · intro p tkvs svkvs hw hsv
    unfold getValueFromPath
    simp only [hw, Option.bind_eq_bind, Option.some_bind, asObj, hsv]

/-- Witness for C4: the resolver at a concrete discovered path. -/
theorem claim_C4_witness :
    getValueFromPath
        (JSON.obj [("a", JSON.obj [("x",
          JSON.str "linux_customcompliance_discoveryscript"),
          ("simpleSettingValue", JSON.obj [("value", JSON.str "SID")])])])
        [PathElem.key "a"] =
      getEntry [("value", JSON.str "SID")] "value" :=
  (claim_C4 _).2.2 [PathElem.key "a"]
    [("x", JSON.str "linux_customcompliance_discoveryscript"),
     ("simpleSettingValue", JSON.obj [("value", JSON.str "SID")])]
    [("value", JSON.str "SID")] (by rfl) (by rfl)

/-! ## Claim C5: partial-failure isolation -/

/-- C5: in the App Configuration module, when the single batched round-trip
answers identifier X with an empty body and identifier Y with a full body
(harvested from two different Records), Y's Record is fully enriched, X's
Record keeps its raw identifier list, and the module does not abort: both
Records reach persistence and `main()` returns the persistence result. -/
theorem claim_C5 (iX iY x y nm ty : String) (res : JSON)
    (batch : BatchCall → List JSON) (decode : String → Option JSON)
    (process : JSON → Option JSON)
    (hxy : x ≠ y)
    (hb : batch ⟨[mkIdItem (.str x), mkIdItem (.str y)],
        "/beta/deviceAppManagement/mobileApps", "", "GET"⟩ =
      [JSON.obj [("id", JSON.str x), ("body", JSON.obj [])],
       JSON.obj [("id", JSON.str y), ("body", JSON.obj
         [("id", JSON.str y), ("displayName", JSON.str nm),
          ("@odata.type", JSON.str ty)])]])
    (hp : process (JSON.arr
        [JSON.obj [("id", JSON.str iX),
          ("targetedMobileApps", JSON.arr [JSON.str x])],
         JSON.obj [("id", JSON.str iY), ("targetedMobileApps",
           JSON.obj [("appName", JSON.str nm), ("type", JSON.str ty)])]]) =
      some res) :
    acMain (some (JSON.obj [("value", JSON.arr
        [JSON.obj [("id", JSON.str iX),
          ("targetedMobileApps", JSON.arr [JSON.str x])],
         JSON.obj [("id", JSON.str iY),
          ("targetedMobileApps", JSON.arr [JSON.str y])]])]))
      batch decode process =
    ⟨.ok res, [⟨[mkIdItem (.str x), mkIdItem (.str y)],
      "/beta/deviceAppManagement/mobileApps", "", "GET"⟩]⟩ := by
  have hyx : ¬(JSON.str y = JSON.str x) := fun h => hxy (JSON.str.inj h).symm
  have hharv : acHarvestAppIds
      [JSON.obj [("id", JSON.str iX),
        ("targetedMobileApps", JSON.arr [JSON.str x])],
       JSON.obj [("id", JSON.str iY),
        ("targetedMobileApps", JSON.arr [JSON.str y])]] =
      some [JSON.str x, JSON.str y] := by
    unfold acHarvestAppIds
    simp [acHarvestStep, asObj, getEntry, asArr, sinsert, hashable, hyx]
  have hmap : buildBodyByIdMap
      [JSON.obj [("id", JSON.str x), ("body", JSON.obj [])],
       JSON.obj [("id", JSON.str y), ("body", JSON.obj
         [("id", JSON.str y), ("displayName", JSON.str nm),
          ("@odata.type", JSON.str ty)])]] =
      some [(JSON.str y, JSON.obj
        [("id", JSON.str y), ("displayName", JSON.str nm),
         ("@odata.type", JSON.str ty)])] := by
    unfold buildBodyByIdMap
    simp [asObj, getEntry, truthy, hashable, dupsert]
  have hX : acEnrichRecord
      [(JSON.str y, JSON.obj
        [("id", JSON.str y), ("displayName", JSON.str nm),
         ("@odata.type", JSON.str ty)])] decode
      (JSON.obj [("id", JSON.str iX),
        ("targetedMobileApps", JSON.arr [JSON.str x])]) =
      some (JSON.obj [("id", JSON.str iX),
        ("targetedMobileApps", JSON.arr [JSON.str x])]) := by
    unfold acEnrichRecord acEnrichApps acFirstResolvable acDecodePayload
    simp [asObj, getEntry, asArr, truthy, pyDictGet, hashable, dlookup, hyx,
      acFirstResolvable]
  have hY : acEnrichRecord
      [(JSON.str y, JSON.obj
        [("id", JSON.str y), ("displayName", JSON.str nm),
         ("@odata.type", JSON.str ty)])] decode
      (JSON.obj [("id", JSON.str iY),
        ("targetedMobileApps", JSON.arr [JSON.str y])]) =
      some (JSON.obj [("id", JSON.str iY),
        ("targetedMobileApps", JSON.obj
          [("appName", JSON.str nm), ("type", JSON.str ty)])]) := by
    unfold acEnrichRecord acEnrichApps acFirstResolvable acDecodePayload
    simp [asObj, getEntry, asArr, truthy, pyDictGet, hashable, dlookup,
      eraseKey, upsert]
  unfold acMain
  simp only [asObj, getEntry, if_pos, Option.some_bind]
  unfold acEnrichValue
  rw [show truthy (JSON.arr
      [JSON.obj [("id", JSON.str iX),
        ("targetedMobileApps", JSON.arr [JSON.str x])],
       JSON.obj [("id", JSON.str iY),
        ("targetedMobileApps", JSON.arr [JSON.str y])]]) = true from rfl]
  simp only [if_true, asArr, hharv]
  rw [show acAppCalls [JSON.str x, JSON.str y] =
      [⟨[mkIdItem (.str x), mkIdItem (.str y)],
        "/beta/deviceAppManagement/mobileApps", "", "GET"⟩] from rfl]
  simp only [List.map_cons, List.map_nil, hb, List.flatten, List.append_nil,
    hmap, List.mapM_cons, List.mapM_nil, hX, hY, Option.pure_def,
    Option.bind_eq_bind, Option.some_bind, hp]

/-- Witness for C5 at concrete identifiers and oracles. -/
theorem claim_C5_witness :
    acMain (some (JSON.obj [("value", JSON.arr
        [JSON.obj [("id", JSON.str "rX"),
          ("targetedMobileApps", JSON.arr [JSON.str "appX"])],
         JSON.obj [("id", JSON.str "rY"),
          ("targetedMobileApps", JSON.arr [JSON.str "appY"])]])]))
      (fun _ =>
        [JSON.obj [("id", JSON.str "appX"), ("body", JSON.obj [])],
         JSON.obj [("id", JSON.str "appY"), ("body", JSON.obj
           [("id", JSON.str "appY"), ("displayName", JSON.str "Foo"),
            ("@odata.type", JSON.str "#t.App")])]])
      (fun _ => none) (fun v => some v) =
    ⟨.ok (JSON.arr
        [JSON.obj [("id", JSON.str "rX"),
          ("targetedMobileApps", JSON.arr [JSON.str "appX"])],
         JSON.obj [("id", JSON.str "rY"), ("targetedMobileApps",
           JSON.obj [("appName", JSON.str "Foo"),
             ("type", JSON.str "#t.App")])]]),
      [⟨[mkIdItem (.str "appX"), mkIdItem (.str "appY")],
        "/beta/deviceAppManagement/mobileApps", "", "GET"⟩]⟩ :=
  claim_C5 "rX" "rY" "appX" "appY" "Foo" "#t.App" _ _ _ _
    (by decide) (by rfl) (by rfl)

/-! ## Claim C6: fatal-error contract of main() -/

/-- C6 counterexample: a successful primary fetch whose single record lacks
the `targetedMobileApps` key, with a persistence collaborator that never
fails.  The claim demands that `main()` return the persistence result
(enrichment-stage failures never cause a null return), but the enrichment
stage raises an uncaught `KeyError` and `main()` neither returns a result
nor returns null-with-log. -/
theorem claim_C6_counterexample :
    (acMain (some (JSON.obj [("value",
        JSON.arr [JSON.obj [("id", JSON.str "r1")]])]))
      (fun _ => []) (fun _ => none) (fun v => some v)).outcome =
      Outcome.raised ∧
    (acMain (some (JSON.obj [("value",
        JSON.arr [JSON.obj [("id", JSON.str "r1")]])]))
      (fun _ => []) (fun _ => none) (fun v => some v)).outcome ≠
      Outcome.ok (JSON.arr [JSON.obj [("id", JSON.str "r1")]]) := by
  constructor
  · rfl
  · decide

/-- C6 (amended): provided the enrichment stage raises no exception, each
of the App Configuration and Group Policy Configurations `main()` returns
null and logs an error exactly when the primary fetch raises or when the
final persistence call raises (all enrichment work discarded), and in
every other case returns the persistence result; an enrichment-stage
exception instead propagates uncaught out of `main()`. -/
theorem claim_C6 :
    (∀ (batch : BatchCall → List JSON) (decode : String → Option JSON)
       (process : JSON → Option JSON),
      acMain none batch decode process =
        ⟨.fatalLogged "Error getting App Configuration data", []⟩) ∧
    (∀ batch decode process (g : JSON) (kvs : List (String × JSON))
       (value value2 : JSON) (calls : List BatchCall),
      asObj g = some kvs → getEntry kvs "value" = some value →
      acEnrichValue batch decode value = (some value2, calls) →
      acMain (some g) batch decode process =
        ⟨(match process value2 with
          | none => Outcome.fatalLogged "Error processing App Configuration data"
          | some r => Outcome.ok r), calls⟩) ∧
    (∀ batch decode process (g : JSON) (kvs : List (String × JSON))
       (value : JSON) (calls : List BatchCall),
      asObj g = some kvs → getEntry kvs "value" = some value →
      acEnrichValue batch decode value = (none, calls) →
      acMain (some g) batch decode process = ⟨.raised, calls⟩) ∧
    (∀ (batch : BatchCall → List JSON) (process : JSON → Option JSON),
      gpcMain none batch process =
        ⟨.fatalLogged "Error getting Group Policy Configuration data", []⟩) ∧
    (∀ batch process (g : JSON) (kvs : List (String × JSON))
       (value value2 : JSON) (calls : List BatchCall),
      asObj g = some kvs → getEntry kvs "value" = some value →
      gpcEnrichValue batch value = (some value2, calls) →
      gpcMain (some g) batch process =
        ⟨(match process value2 with
          | none =>
            Outcome.fatalLogged "Error processing Group Policy Configuration data"
          | some r => Outcome.ok r), calls⟩) ∧
    (∀ batch process (g : JSON) (kvs : List (String × JSON))
       (value : JSON) (calls : List BatchCall),
      asObj g = some kvs → getEntry kvs "value" = some value →
      gpcEnrichValue batch value = (none, calls) →
      gpcMain (some g) batch process = ⟨.raised, calls⟩) := by
  refine ⟨fun _ _ _ => rfl, ?_, ?_, fun _ _ => rfl, ?_, ?_⟩
  · intro batch decode process g kvs value value2 calls hg hv he
    unfold acMain
    simp only [hg, hv, he]
    cases process value2 <;> rfl
  · intro batch decode process g kvs value calls hg hv he
    unfold acMain
    simp only [hg, hv, he]
  · intro batch process g kvs value value2 calls hg hv he
    unfold gpcMain
    simp only [hg, hv, he]
    cases process value2 <;> rfl
  · intro batch process g kvs value calls hg hv he
    unfold gpcMain
    simp only [hg, hv, he]

/-- Witness for C6: a fetch-success, enrichment-success, persistence-success
run returns the persistence result. -/
theorem claim_C6_witness :
    acMain (some (JSON.obj [("value", JSON.arr [])]))
      (fun _ => []) (fun _ => none) (fun v => some v) =
    ⟨.ok (JSON.arr []), []⟩ :=
  claim_C6.2.1 (fun _ => []) (fun _ => none) (fun v => some v)
    (JSON.obj [("value", JSON.arr [])]) [("value", JSON.arr [])]
    (JSON.arr []) (JSON.arr []) [] (by rfl) (by rfl) (by rfl)

/-! ## Key-preservation lemmas for the per-record transforms -/

theorem rolesCleanupRecord_preserves (item item' : JSON) (k : String)
    (h1 : k ≠ "permissions") (h2 : k ≠ "rolePermissions")
    (h : rolesCleanupRecord item = some item') :
    jLookup item' k = jLookup item k := by
  cases item with
  | obj kvs =>
    unfold rolesCleanupRecord at h
    simp only [show asObj (JSON.obj kvs) = some kvs from rfl,
      Option.bind_eq_bind, Option.some_bind] at h
    cases hrp : getEntry (eraseKey kvs "permissions") "rolePermissions" with
    | none => simp only [hrp, Option.none_bind] at h; exact Option.noConfusion h
    | some rp =>
      simp only [hrp, Option.some_bind] at h
      cases hva : asArr rp with
      | none => simp only [hva, Option.none_bind] at h; exact Option.noConfusion h
      | some rpL =>
        simp only [hva, Option.some_bind] at h
        cases rpL with
        | nil => exact Option.noConfusion h
        | cons first rest =>
          cases hfo : asObj first with
          | none =>
            simp only [hfo, Option.none_bind] at h
            exact Option.noConfusion h
          | some fkvs =>
            simp only [hfo, Option.some_bind] at h
            cases h
            show getEntry (upsert (eraseKey kvs "permissions")
              "rolePermissions" _) k = getEntry kvs k
            rw [getEntry_upsert_ne _ _ _ k h2, getEntry_eraseKey_ne _ _ k h1]
  | null => simp [rolesCleanupRecord, asObj] at h
  | bool b => simp [rolesCleanupRecord, asObj] at h
  | num n => simp [rolesCleanupRecord, asObj] at h
  | str s => simp [rolesCleanupRecord, asObj] at h
  | arr xs => simp [rolesCleanupRecord, asObj] at h

theorem rolesEnrichRecord_preserves (am : List (String × JSON))
    (dm gm : List (JSON × JSON)) (ks : List String) (item item' : JSON)
    (k : String) (hk : k ≠ "roleAssignments")
    (h : rolesEnrichRecord am dm gm ks item = some item') :
    jLookup item' k = jLookup item k := by
  cases item with
  | obj kvs =>
    unfold rolesEnrichRecord at h
    simp only [show asObj (JSON.obj kvs) = some kvs from rfl,
      Option.bind_eq_bind, Option.some_bind] at h
    cases hid : getEntry kvs "id" with
    | none => simp only [hid, Option.none_bind] at h; exact Option.noConfusion h
    | some pid =>
      simp only [hid, Option.some_bind] at h
      cases hasg : pyStrKeyGet am pid (.arr []) with
      | none => simp only [hasg, Option.none_bind] at h; exact Option.noConfusion h
      | some assignments =>
        simp only [hasg, Option.some_bind] at h
        by_cases ht : truthy assignments = true
        · rw [if_pos ht] at h
          cases hva : asArr assignments with
          | none =>
            simp only [hva, Option.none_bind] at h
            exact Option.noConfusion h
          | some asgL =>
            simp only [hva, Option.some_bind] at h
            cases hras : asgL.foldlM (rolesAssignmentStep dm gm ks) [] with
            | none =>
              rw [hras] at h
              exact Option.noConfusion h
            | some ras =>
              rw [hras] at h
              simp only [Option.some_bind] at h
              cases h
              show getEntry (upsert kvs "roleAssignments" _) k = getEntry kvs k
              rw [getEntry_upsert_ne _ _ _ k hk]
        · rw [if_neg ht] at h
          cases h
          rfl
  | null => simp [rolesEnrichRecord, asObj] at h
  | bool b => simp [rolesEnrichRecord, asObj] at h
  | num n => simp [rolesEnrichRecord, asObj] at h
  | str s => simp [rolesEnrichRecord, asObj] at h
  | arr xs => simp [rolesEnrichRecord, asObj] at h

theorem acEnrichApps_preserves (m : List (JSON × JSON)) (item item' : JSON)
    (k : String) (hk : k ≠ "targetedMobileApps")
    (h : acEnrichApps m item = some item') :
    jLookup item' k = jLookup item k := by
  cases item with
  | obj kvs =>
    unfold acEnrichApps at h
    simp only [show asObj (JSON.obj kvs) = some kvs from rfl,
      Option.bind_eq_bind, Option.some_bind] at h
    cases hg : getEntry kvs "targetedMobileApps" with
    | none => simp only [hg] at h; cases h; rfl
    | some tma =>
      simp only [hg] at h
      by_cases ht : truthy tma = true
      · rw [if_pos ht] at h
        cases hva : asArr tma with
        | none => simp only [hva, Option.none_bind] at h; exact Option.noConfusion h
        | some apps =>
          simp only [hva, Option.some_bind] at h
          cases hf : acFirstResolvable m apps with
          | none => simp only [hf, Option.none_bind] at h; exact Option.noConfusion h
          | some found =>
            simp only [hf, Option.some_bind] at h
            cases found with
            | none => simp only at h; cases h; rfl
            | some appData =>
              simp only at h
              cases hao : asObj appData with
              | none =>
                simp only [hao, Option.none_bind] at h
                exact Option.noConfusion h
              | some akvs =>
                simp only [hao, Option.some_bind] at h
                cases hdn : getEntry akvs "displayName" with
                | none =>
                  simp only [hdn, Option.none_bind] at h
                  exact Option.noConfusion h
                | some nm =>
                  simp only [hdn, Option.some_bind] at h
                  cases hot : getEntry akvs "@odata.type" with
                  | none =>
                    simp only [hot, Option.none_bind] at h
                    exact Option.noConfusion h
                  | some ty =>
                    simp only [hot, Option.some_bind] at h
                    cases h
                    show getEntry (upsert (eraseKey kvs "targetedMobileApps")
                      "targetedMobileApps" _) k = getEntry kvs k
                    rw [getEntry_upsert_ne _ _ _ k hk,
                      getEntry_eraseKey_ne _ _ k hk]
      · rw [if_neg ht] at h
        cases h
        rfl
  | null => simp [acEnrichApps, asObj] at h
  | bool b => simp [acEnrichApps, asObj] at h
  | num n => simp [acEnrichApps, asObj] at h
  | str s => simp [acEnrichApps, asObj] at h
  | arr xs => simp [acEnrichApps, asObj] at h

theorem acDecodePayload_preserves (decode : String → Option JSON)
    (item item' : JSON) (k : String) (hk : k ≠ "payloadJson")
    (h : acDecodePayload decode item = some item') :
    jLookup item' k = jLookup item k := by
  cases item with
  | obj kvs =>
    unfold acDecodePayload at h
    simp only [show asObj (JSON.obj kvs) = some kvs from rfl,
      Option.bind_eq_bind, Option.some_bind] at h
    cases hg : getEntry kvs "payloadJson" with
    | none => simp only [hg] at h; cases h; rfl
    | some pj =>
      simp only [hg] at h
      by_cases ht : truthy pj = true
      · rw [if_pos ht] at h
        cases pj with
        | str s =>
          simp only [Option.some_bind] at h
          cases hd : decode s with
          | none => simp only [hd, Option.none_bind] at h; exact Option.noConfusion h
          | some dj =>
            simp only [hd, Option.some_bind] at h
            cases h
            show getEntry (upsert kvs "payloadJson" _) k = getEntry kvs k
            rw [getEntry_upsert_ne _ _ _ k hk]
        | null => simp at h
        | bool b => simp at h
        | num n => simp at h
        | arr xs => simp at h
        | obj kvs2 => simp at h
      · rw [if_neg ht] at h
        cases h
        rfl
  | null => simp [acDecodePayload, asObj] at h
  | bool b => simp [acDecodePayload, asObj] at h
  | num n => simp [acDecodePayload, asObj] at h
  | str s => simp [acDecodePayload, asObj] at h
  | arr xs => simp [acDecodePayload, asObj] at h

theorem acEnrichRecord_preserves (m : List (JSON × JSON))
    (decode : String → Option JSON) (item item' : JSON) (k : String)
    (hk1 : k ≠ "targetedMobileApps") (hk2 : k ≠ "payloadJson")
    (h : acEnrichRecord m decode item = some item') :
    jLookup item' k = jLookup item k := by
  unfold acEnrichRecord at h
  cases h1 : acEnrichApps m item with
  | none => rw [h1] at h; exact Option.noConfusion h
  | some mid =>
    rw [h1] at h
    simp only [Option.bind_eq_bind, Option.some_bind] at h
    rw [acDecodePayload_preserves decode mid item' k hk2 h,
      acEnrichApps_preserves m item mid k hk1 h1]

theorem asObj_eq_some (j : JSON) (kvs : List (String × JSON))
    (h : asObj j = some kvs) : j = .obj kvs := by
  cases j with
  | obj kvs0 =>
    simp only [asObj, Option.some.injEq] at h
    rw [h]
  | null => simp [asObj] at h
  | bool b => simp [asObj] at h
  | num n => simp [asObj] at h
  | str s => simp [asObj] at h
  | arr xs => simp [asObj] at h

theorem gpcAssembleRecord_preserves (defsMap presMap : List (String × JSON))
    (item item' : JSON) (k : String) (hk : k ≠ "definitionValues")
    (h : gpcAssembleRecord defsMap presMap item = some item') :
    jLookup item' k = jLookup item k := by
  cases item with
  | obj kvs =>
    unfold gpcAssembleRecord at h
    simp only [show asObj (JSON.obj kvs) = some kvs from rfl,
      Option.bind_eq_bind, Option.some_bind] at h
    cases hid : getEntry kvs "id" with
    | none => simp only [hid, Option.none_bind] at h; exact Option.noConfusion h
    | some pid =>
      simp only [hid, Option.some_bind] at h
      cases hdf : pyStrKeyGet defsMap pid (.arr []) with
      | none => simp only [hdf, Option.none_bind] at h; exact Option.noConfusion h
      | some defs =>
        simp only [hdf, Option.some_bind] at h
        cases hda : asArr defs with
        | none => simp only [hda, Option.none_bind] at h; exact Option.noConfusion h
        | some defsL =>
          simp only [hda, Option.some_bind] at h
          cases hmm : defsL.mapM (gpcDefStep presMap pid) with
          | none =>
            rw [hmm] at h
            exact Option.noConfusion h
          | some defs2 =>
            rw [hmm] at h
            simp only [Option.some_bind] at h
            cases h
            show getEntry (upsert kvs "definitionValues" _) k = getEntry kvs k
            rw [getEntry_upsert_ne _ _ _ k hk]
  | null => simp [gpcAssembleRecord, asObj] at h
  | bool b => simp [gpcAssembleRecord, asObj] at h
  | num n => simp [gpcAssembleRecord, asObj] at h
  | str s => simp [gpcAssembleRecord, asObj] at h
  | arr xs => simp [gpcAssembleRecord, asObj] at h

theorem dcDetectionStep_preserves (sm : List (JSON × JSON))
    (item item' : JSON) (k : String) (hk : k ≠ "detectionScriptName")
    (h : dcDetectionStep sm item = some item') :
    jLookup item' k = jLookup item k := by
  unfold dcDetectionStep at h
  by_cases hc : checkLinux item = true
  · rw [if_pos hc] at h
    cases hp : getDetectionScriptId item [] with
    | none => simp only [hp] at h; cases h; rfl
    | some p =>
      simp only [hp, Option.bind_eq_bind] at h
      cases hsid : getValueFromPath item p with
      | none => simp only [hsid, Option.none_bind] at h; exact Option.noConfusion h
      | some sid =>
        simp only [hsid, Option.some_bind] at h
        cases hao : asObj item with
        | none => simp only [hao, Option.none_bind] at h; exact Option.noConfusion h
        | some kvs =>
          simp only [hao, Option.some_bind] at h
          cases hr : pyDictGet sm sid with
          | none => simp only [hr, Option.none_bind] at h; exact Option.noConfusion h
          | some r =>
            simp only [hr, Option.some_bind] at h
            cases h
            rw [asObj_eq_some item kvs hao]
            show getEntry (upsert kvs "detectionScriptName" _) k = getEntry kvs k
            rw [getEntry_upsert_ne _ _ _ k hk]
  · rw [if_neg hc] at h
    cases h
    rfl

theorem dcEnrichRecord_preserves (sm : List (JSON × JSON))
    (am : List (String × JSON)) (tm : List (JSON × JSON)) (ks : List String)
    (item item' : JSON) (k : String)
    (hk1 : k ≠ "detectionScriptName") (hk2 : k ≠ "scheduledActionsForRule")
    (h : dcEnrichRecord sm am tm ks item = some item') :
    jLookup item' k = jLookup item k := by
  unfold dcEnrichRecord at h
  cases hi1 : dcDetectionStep sm item with
  | none => rw [hi1] at h; exact Option.noConfusion h
  | some i1 =>
    rw [hi1] at h
    simp only [Option.bind_eq_bind, Option.some_bind] at h
    cases hao : asObj i1 with
    | none => simp only [hao, Option.none_bind] at h; exact Option.noConfusion h
    | some kvs1 =>
      simp only [hao, Option.some_bind] at h
      cases hid : getEntry kvs1 "id" with
      | none => simp only [hid, Option.none_bind] at h; exact Option.noConfusion h
      | some pid =>
        simp only [hid, Option.some_bind] at h
        cases hsa : pyStrKeyGet am pid (.arr []) with
        | none => simp only [hsa, Option.none_bind] at h; exact Option.noConfusion h
        | some sa =>
          simp only [hsa, Option.some_bind] at h
          cases hav : asArr ((getEntry (upsert kvs1 "scheduledActionsForRule" sa)
              "scheduledActionsForRule").getD (.arr [])) with
          | none => simp only [hav, Option.none_bind] at h; exact Option.noConfusion h
          | some actions =>
            simp only [hav, Option.some_bind] at h
            cases hmm : actions.mapM (dcProcessAction tm ks) with
            | none => rw [hmm] at h; exact Option.noConfusion h
            | some actions2 =>
              rw [hmm] at h
              simp only [Option.some_bind] at h
              cases h
              rw [← dcDetectionStep_preserves sm item i1 k hk1 hi1,
                asObj_eq_some i1 kvs1 hao]
              show getEntry (upsert (upsert kvs1 "scheduledActionsForRule" sa)
                "scheduledActionsForRule" _) k = getEntry kvs1 k
              rw [getEntry_upsert_ne _ _ _ k hk2, getEntry_upsert_ne _ _ _ k hk2]

/-! ## Claim C9: the identity field survives enrichment -/

/-- C9: in every module, the per-record enrichment transforms (in-place
merges, key removals, field cleanup) never change or remove the record's
`id` field: whenever a transform succeeds, the output record's `id` equals
the input record's `id`. -/
theorem claim_C9 :
    (∀ (m : List (JSON × JSON)) (decode : String → Option JSON)
       (item item' : JSON),
      acEnrichRecord m decode item = some item' →
      jLookup item' "id" = jLookup item "id") ∧
    (∀ (sm : List (JSON × JSON)) (am : List (String × JSON))
       (tm : List (JSON × JSON)) (ks : List String) (item item' : JSON),
      dcEnrichRecord sm am tm ks item = some item' →
      jLookup item' "id" = jLookup item "id") ∧
    (∀ (defsMap presMap : List (String × JSON)) (item item' : JSON),
      gpcAssembleRecord defsMap presMap item = some item' →
      jLookup item' "id" = jLookup item "id") ∧
    (∀ (am : List (String × JSON)) (dm gm : List (JSON × JSON))
       (ks : List String) (item item' : JSON),
      rolesEnrichRecord am dm gm ks item = some item' →
      jLookup item' "id" = jLookup item "id") ∧
    (∀ (item item' : JSON),
      rolesCleanupRecord item = some item' →
      jLookup item' "id" = jLookup item "id") := by
  refine ⟨?_, ?_, ?_, ?_, ?_⟩
  · intro m decode item item' h
    exact acEnrichRecord_preserves m decode item item' "id"
      (by decide) (by decide) h
  · intro sm am tm ks item item' h
    exact dcEnrichRecord_preserves sm am tm ks item item' "id"
      (by decide) (by decide) h
  · intro defsMap presMap item item' h
    exact gpcAssembleRecord_preserves defsMap presMap item item' "id"
      (by decide) h
  · intro am dm gm ks item item' h
    exact rolesEnrichRecord_preserves am dm gm ks item item' "id"
      (by decide) h
  · intro item item' h
    exact rolesCleanupRecord_preserves item item' "id"
      (by decide) (by decide) h

/-- Witness for C9 at a concrete Roles cleanup. -/
theorem claim_C9_witness :
    jLookup (JSON.obj [("id", JSON.str "r1"),
      ("rolePermissions", JSON.arr [JSON.obj []])]) "id" =
    jLookup (JSON.obj [("id", JSON.str "r1"), ("permissions", JSON.null),
      ("rolePermissions", JSON.arr [JSON.obj [("actions", JSON.null)]])])
      "id" :=
  claim_C9.2.2.2.2
    (JSON.obj [("id", JSON.str "r1"), ("permissions", JSON.null),
      ("rolePermissions", JSON.arr [JSON.obj [("actions", JSON.null)]])])
    (JSON.obj [("id", JSON.str "r1"),
      ("rolePermissions", JSON.arr [JSON.obj []])])
    (by rfl)

/-! ## Claim C7: assignments exclusion skips all five stages -/

/-- C7: in the Roles module, when `"assignments"` is in the configured
exclude set, no batch calls are issued at all, and a `roleAssignments`
field appears in an output Record exactly when the input Record already
had one — the module adds none. -/
theorem claim_C7 (fetch : Option JSON) (batch : BatchCall → List JSON)
    (exclude ks : List String) (process : JSON → Option JSON)
    (h : "assignments" ∈ exclude) :
    (rolesMain fetch batch exclude ks process).calls = [] ∧
    (∀ (value : JSON) (items items2 : List JSON) (calls : List BatchCall),
      asArr value = some items →
      rolesEnrichValue batch exclude ks value = (some (.arr items2), calls) →
      List.Forall₂ (fun a b =>
        jHasKey b "roleAssignments" = jHasKey a "roleAssignments")
        items items2) := by
  have henr : ∀ value, (rolesEnrichValue batch exclude ks value).2 = [] := by
    intro value
    unfold rolesEnrichValue
    cases asArr value with
    | none => rfl
    | some items =>
      simp only [if_pos h]
      cases items.mapM rolesCleanupRecord <;> rfl
  constructor
  · cases fetch with
    | none => rfl
    | some g =>
      cases hg : asObj g with
      | none => unfold rolesMain; simp only [hg]
      | some kvs =>
        cases hv : getEntry kvs "value" with
        | none => unfold rolesMain; simp only [hg, hv]
        | some value =>
          have h2 := henr value
          cases he : rolesEnrichValue batch exclude ks value with
          | mk r calls =>
            rw [he] at h2
            simp only at h2
            unfold rolesMain
            simp only [hg, hv, he]
            cases r with
            | none => simpa using h2
            | some v2 =>
              cases hp : process v2 with
              | none => simp only [hp]; exact h2
              | some r2 => simp only [hp]; exact h2
  · intro value items items2 calls ha he
    unfold rolesEnrichValue at he
    simp only [ha] at he
    rw [if_pos h] at he
    cases hmm : items.mapM rolesCleanupRecord with
    | none => simp only [hmm] at he; simp at he
    | some its2 =>
      simp only [hmm] at he
      simp only [Prod.mk.injEq, Option.some.injEq, JSON.arr.injEq] at he
      obtain ⟨heq, -⟩ := he
      subst heq
      refine (mapM_option_forall2 rolesCleanupRecord items its2 hmm).imp ?_
      intro a b hab
      unfold jHasKey
      rw [rolesCleanupRecord_preserves a b "roleAssignments"
        (by decide) (by decide) hab]

/-- Witness for C7 at a concrete excluded run. -/
theorem claim_C7_witness :
    (rolesMain (some (JSON.obj [("value", JSON.arr
        [JSON.obj [("id", JSON.str "r1"), ("rolePermissions",
          JSON.arr [JSON.obj [("actions", JSON.null)]])]])]))
      (fun _ => []) ["assignments"] [] (fun v => some v)).calls = [] :=
  (claim_C7 _ _ ["assignments"] [] _ (by decide)).1

/-! ## Claim C10: the unconditional Roles cleanup raises -/

theorem rolesCleanupRecord_fails (bad : JSON)
    (hbad : jLookup bad "rolePermissions" = none ∨
      jLookup bad "rolePermissions" = some (.arr [])) :
    rolesCleanupRecord bad = none := by
  cases bad with
  | obj kvs =>
    unfold rolesCleanupRecord
    simp only [show asObj (JSON.obj kvs) = some kvs from rfl,
      Option.bind_eq_bind, Option.some_bind]
    have hrw : getEntry (eraseKey kvs "permissions") "rolePermissions" =
        getEntry kvs "rolePermissions" :=
      getEntry_eraseKey_ne kvs "permissions" "rolePermissions" (by decide)
    rcases hbad with hb | hb
    · simp only [jLookup] at hb
      rw [hrw, hb]
      rfl
    · simp only [jLookup] at hb
      rw [hrw, hb]
      rfl
  | null => rfl
  | bool b => rfl
  | num n => rfl
  | str s => rfl
  | arr xs => rfl

/-- C10: for any primary-fetch result containing a Record that lacks a
`rolePermissions` key or whose `rolePermissions` list is empty, the
unconditional cleanup `item["rolePermissions"][0].pop("actions", None)` —
outside any try/except and regardless of the exclude configuration —
raises an uncaught exception: `main()` neither returns null-with-log nor a
result, so the fatal-error contract is not upheld for this input. -/
theorem claim_C10 (batch : BatchCall → List JSON) (exclude ks : List String)
    (process : JSON → Option JSON) (g : JSON) (kvs : List (String × JSON))
    (value : JSON) (items : List JSON) (bad : JSON)
    (hg : asObj g = some kvs) (hv : getEntry kvs "value" = some value)
    (ha : asArr value = some items) (hmem : bad ∈ items)
    (hbad : jLookup bad "rolePermissions" = none ∨
      jLookup bad "rolePermissions" = some (.arr [])) :
    (rolesMain (some g) batch exclude ks process).outcome = .raised := by
  have hfails := rolesCleanupRecord_fails bad hbad
  have henr : (rolesEnrichValue batch exclude ks value).1 = none := by
    unfold rolesEnrichValue
    simp only [ha]
    by_cases hex : "assignments" ∈ exclude
    · rw [if_pos hex]
      simp only [mapM_option_none_of_mem rolesCleanupRecord items bad
        hmem hfails]
    · rw [if_neg hex]
      split
      · rfl
      rename_i roleIds h1
      split
      · rfl
      rename_i am h2
      split
      · rfl
      rename_i aids h3
      split
      · rfl
      rename_i dm h4
      split
      · rfl
      rename_i gids h5
      split
      · rfl
      rename_i gm h6
      split
      · rfl
      rename_i items2 h7
      obtain ⟨bad2, hmem2, hb2⟩ := forall2_mem_left
        (mapM_option_forall2 _ items items2 h7) hmem
      have hpres := rolesEnrichRecord_preserves am dm gm ks
        bad bad2 "rolePermissions" (by decide) hb2
      have hfails2 : rolesCleanupRecord bad2 = none := by
        refine rolesCleanupRecord_fails bad2 ?_
        rw [hpres]
        exact hbad
      simp only [mapM_option_none_of_mem rolesCleanupRecord items2 bad2
        hmem2 hfails2]
  unfold rolesMain
  cases he : rolesEnrichValue batch exclude ks value with
  | mk r calls =>
    rw [he] at henr
    simp only at henr
    subst henr
    simp only [hg, hv, he]

/-- Witness for C10 at a concrete record lacking `rolePermissions`. -/
theorem claim_C10_witness :
    (rolesMain (some (JSON.obj [("value", JSON.arr
        [JSON.obj [("id", JSON.str "r1")]])]))
      (fun _ => []) [] [] (fun v => some v)).outcome = Outcome.raised :=
  claim_C10 (fun _ => []) [] [] (fun v => some v)
    (JSON.obj [("value", JSON.arr [JSON.obj [("id", JSON.str "r1")]])])
    [("value", JSON.arr [JSON.obj [("id", JSON.str "r1")]])]
    (JSON.arr [JSON.obj [("id", JSON.str "r1")]])
    [JSON.obj [("id", JSON.str "r1")]]
    (JSON.obj [("id", JSON.str "r1")])
    (by rfl) (by rfl) (by rfl) (by simp) (Or.inl (by rfl))

/-! ## Claim C8: the all-zero GUID is never harvested -/

theorem getEntry_filter_isSome (p : String × JSON → Bool)
    (kvs : List (String × JSON)) (k : String) :
    (getEntry (kvs.filter p) k).isSome = true →
    (getEntry kvs k).isSome = true := by
  induction kvs with
  | nil => simp [getEntry]
  | cons e rest ih =>
    obtain ⟨k0, v0⟩ := e
    intro h
    by_cases hp : p (k0, v0) = true
    · rw [List.filter_cons_of_pos hp] at h
      by_cases hk : k0 = k
      · simp [getEntry, hk]
      · simp only [getEntry, hk, if_false] at h ⊢
        exact ih h
    · rw [List.filter_cons_of_neg (by simpa using hp)] at h
      by_cases hk : k0 = k
      · simp [getEntry, hk]
      · simp only [getEntry, hk, if_false]
        exact ih h

theorem removeKeys_hasKey (ks : List String) (j : JSON) (k : String) :
    jHasKey (removeKeys ks j) k = true → jHasKey j k = true := by
  cases j with
  | obj kvs =>
    unfold removeKeys jHasKey jLookup
    exact getEntry_filter_isSome _ kvs k
  | null => exact fun h => h
  | bool b => exact fun h => h
  | num n => exact fun h => h
  | str s => exact fun h => h
  | arr xs => exact fun h => h

/-- C8: the all-zero GUID is never harvested as a notification-template
identifier: it never appears in the harvested template-id set, no Batch
Request Item is ever created for it, and a scheduled-action configuration
whose `notificationTemplateId` equals the all-zero GUID is only stripped of
metadata keys — no `notificationTemplateName` field is ever attached to it. -/
theorem claim_C8 :
    (∀ (responses : List JSON) (m : List (String × JSON)) (tids : List JSON),
      dcBuildScheduled responses = some (m, tids) →
      JSON.str zeroGuid ∉ tids ∧
      ∀ c ∈ dcTemplateCalls tids, mkIdItem (.str zeroGuid) ∉ c.data) ∧
    (∀ (tm : List (JSON × JSON)) (ks : List String)
       (ckvs : List (String × JSON)),
      getEntry ckvs "notificationTemplateId" = some (.str zeroGuid) →
      dcProcessConfig tm ks (.obj ckvs) = some (removeKeys ks (.obj ckvs)) ∧
      (jHasKey (JSON.obj ckvs) "notificationTemplateName" = false →
        ∀ out, dcProcessConfig tm ks (.obj ckvs) = some out →
        jHasKey out "notificationTemplateName" = false)) := by
  have hP1 : ∀ (ts : List JSON) (t : JSON) (ts' : List JSON),
      sinsert ts t = some ts' → truthy t = true → t ≠ .str zeroGuid →
      JSON.str zeroGuid ∉ ts → JSON.str zeroGuid ∉ ts' := by
    intro ts t ts' hins _ hne hmem hmem'
    rw [sinsert_mem ts t ts' hins (JSON.str zeroGuid)] at hmem'
    rcases hmem' with h1 | h1
    · exact hmem h1
    · exact hne h1.symm
  constructor
  · intro responses m tids h
    have hnot : JSON.str zeroGuid ∉ tids := by
      have := foldlM_option_invariant
        (fun acc : List (String × JSON) × List JSON =>
          JSON.str zeroGuid ∉ acc.2)
        dcScheduledStep
        (fun s a s' hp hstep =>
          dcScheduledStep_inv (fun ts => JSON.str zeroGuid ∉ ts) hP1
            s a s' hstep hp)
        responses ([], []) (m, tids) (by simp) h
      exact this
    refine ⟨hnot, ?_⟩
    intro c hc hin
    unfold dcTemplateCalls at hc
    by_cases he : tids.isEmpty = true
    · rw [if_pos he] at hc
      simp at hc
    · rw [if_neg he] at hc
      rcases List.mem_singleton.mp hc with rfl
      simp only [List.mem_map] at hin
      obtain ⟨x, hx, heq⟩ := hin
      have hxz : x = JSON.str zeroGuid := by
        simpa [mkIdItem] using heq
      rw [hxz] at hx
      exact hnot hx
  · intro tm ks ckvs hg
    have hmain : dcProcessConfig tm ks (.obj ckvs) =
        some (removeKeys ks (.obj ckvs)) := by
      unfold dcProcessConfig
      simp only [show asObj (JSON.obj ckvs) = some ckvs from rfl,
        Option.bind_eq_bind, Option.some_bind, hg]
      rw [if_neg (by simp)]
      rfl
    refine ⟨hmain, ?_⟩
    intro hno out hout
    rw [hmain] at hout
    cases hout
    cases hjk : jHasKey (removeKeys ks (JSON.obj ckvs))
        "notificationTemplateName" with
    | false => rfl
    | true =>
      rw [removeKeys_hasKey ks (JSON.obj ckvs)
        "notificationTemplateName" hjk] at hno
      exact Bool.noConfusion hno

/-- Witness for C8: a concrete configuration carrying the sentinel id is
only stripped, never annotated. -/
theorem claim_C8_witness :
    dcProcessConfig [] ["roleScopeTagIds"]
        (.obj [("notificationTemplateId",
          JSON.str "00000000-0000-0000-0000-000000000000")]) =
      some (removeKeys ["roleScopeTagIds"]
        (.obj [("notificationTemplateId",
          JSON.str "00000000-0000-0000-0000-000000000000")])) :=
  (claim_C8.2 [] ["roleScopeTagIds"]
    [("notificationTemplateId",
      JSON.str "00000000-0000-0000-0000-000000000000")] (by rfl)).1
